import Mathlib

/-!
# lakeFS actions service

A shallow embedding of `actions/service.go`: the run coordinator (`Run`,
`loadMatchedActions`, `allocateTasks`, `runTasks`), the outcome persister
(`insertRunInformation`, `getMaxEndTime`), the commit linker
(`UpdateCommitID`) and the point readers (`GetRunResult`, `GetTaskResult`),
followed by the properties proved about them.

Go pointers to records are represented by the records themselves, mutation by
state passing.  Collaborators whose code lives outside `service.go` (the
datastore, the identifier generator, the hook factory, the action loader and
matcher) are either parameters of the embedding or modelled from the
specification; each such definition says so.
-/

namespace actions

/-! ## Errors -/

/-- A Go error value that forms a single chain: either a leaf made by
`errors.New` (compared by identity, which `ident` stands for) or the result of
`fmt.Errorf` with a `%w` verb, which keeps the wrapped error. -/
inductive Err where
  | new (ident : String) (msg : String)
  | wrap (msg : String) (inner : Err)
deriving DecidableEq, Repr

/-- The `Error()` text of a chain error. -/
def Err.Error : Err → String
  | .new _ msg => msg
  | .wrap msg _ => msg

/-- The error `fmt.Errorf(text + "%w", err)` builds: its text is `text`
followed by the text of `err`, and it unwraps to `err`. -/
def Errorf (text : String) (err : Err) : Err :=
  .wrap (text ++ err.Error) err

/-- The chain walk of `errors.Is(err, target)`. -/
def errorsIs : Err → Err → Bool
  | .new ident msg, target => decide (Err.new ident msg = target)
  | .wrap msg inner, target => decide (Err.wrap msg inner = target) || errorsIs inner target

/-- A value of Go's `error` interface as `Run` returns it: a chain error or
the `*multierror.Error` that `multierror.Group.Wait` builds. -/
inductive GoError where
  | single (err : Err)
  | multi (errs : List Err)
deriving DecidableEq, Repr

/-- The sentinel `ErrNotFound = errors.New("not found")` of package actions. -/
def ErrNotFound : Err := .new "actions.ErrNotFound" "not found"

/-! ## Time -/

/-- A `time.Time` value: its wall clock reading, counted from the zero
`time.Time` (instants before the zero time are negative), and the monotonic
clock reading it carries, if it carries one.  A value `time.Now()` returns
carries one; the zero value and a value read back from the datastore do not. -/
structure Time where
  wall : Int
  mono : Option Int
deriving DecidableEq, Repr

/-- The zero value of `time.Time`. -/
def zeroTime : Time := ⟨0, none⟩

/-- The method `t.After(u)`: when both values carry a monotonic clock reading
the monotonic readings are compared, otherwise the wall clock readings. -/
def Time.After (t u : Time) : Bool :=
  match t.mono, u.mono with
  | some tm, some um => decide (um < tm)
  | _, _ => decide (u.wall < t.wall)

/-! ## Records of package actions -/

/-- The fields of `Event` that the service reads (`Type_` is the field `Type`,
a reserved word here). -/
structure Event where
  RepositoryID : String
  Type_ : String
  BranchID : String
  SourceRef : String
  Time : Time
deriving DecidableEq, Repr

structure MatchSpec where
  EventType : String
  Branch : String
deriving DecidableEq, Repr

/-- A hook declaration of an action. -/
structure ActionHook where
  ID : String
  Type_ : String
deriving DecidableEq, Repr

/-- Modelled from the spec: the `Action` record, whose declaration is not in
`service.go`: a name, an ordered list of hook declarations and a trigger
specification made of an event type and a branch pattern (the pattern is
represented by the set of branches it matches). -/
structure Action where
  Name : String
  OnEventType : String
  OnBranch : String → Bool
  Hooks : List ActionHook

/-- The output sink of `Deps.Output`; the service only passes it on. -/
structure OutputWriter where
  Name : String
deriving DecidableEq, Repr

structure HookOutputWriter where
  RunID : String
  HookRunID : String
  ActionName : String
  HookID : String
  Writer : OutputWriter
deriving DecidableEq, Repr

/-- The `Hook` interface: its `Run(ctx, event, writer)` method, whose result
is `none` for a nil error. -/
structure Hook where
  Run : Event → HookOutputWriter → Option Err

structure Task where
  RunID : String
  HookRunID : String
  Action : Action
  HookID : String
  Hook : Hook
  Err : Option Err
  StartTime : Time
  EndTime : Time

structure RunResult where
  RunID : String
  BranchID : String
  SourceRef : String
  EventType : String
  StartTime : Time
  EndTime : Time
  Passed : Bool
  CommitID : String
deriving DecidableEq, Repr

structure TaskResult where
  RunID : String
  HookRunID : String
  HookID : String
  ActionName : String
  StartTime : Time
  EndTime : Time
  Passed : Bool
deriving DecidableEq, Repr

/-- Modelled from the spec: the action source of `Deps.Source`, represented by
what `load(context)` yields on it: a sequence of actions or an error. -/
structure Source where
  load : Except Err (List Action)

structure Deps where
  Source : Option Source
  Output : OutputWriter

end actions

/-! ## The datastore -/

namespace db

open actions

/-- A row of `actions_runs`.  A time column holds the wall clock reading of
the `time.Time` bound to it; a monotonic clock reading is not stored. -/
structure RunRow where
  repository_id : String
  run_id : String
  event_type : String
  start_time : Int
  end_time : Int
  branch_id : String
  source_ref : String
  commit_id : String
  passed : Bool
deriving DecidableEq, Repr

/-- A row of `actions_run_hooks`. -/
structure HookRow where
  repository_id : String
  run_id : String
  hook_run_id : String
  event_type : String
  action_name : String
  hook_id : String
  start_time : Int
  end_time : Int
  passed : Bool
deriving DecidableEq, Repr

/-- The two tables of the persisted schema, rows in insertion order. -/
structure Database where
  actions_runs : List RunRow
  actions_run_hooks : List HookRow
deriving DecidableEq, Repr

/-- The parameterized statements `service.go` sends through `tx.Exec` and
`tx.Get`, with their arguments bound. -/
inductive Stmt where
  | insertRun (row : RunRow)
  | insertRunHook (row : HookRow)
  | updateCommitID (repository_id run_id commit_id : String)
  | selectRun (repository_id run_id : String)
  | selectRunHook (repository_id run_id hook_run_id : String)
deriving DecidableEq, Repr

/-- Modelled from the spec: the datastore's distinguished not-found error,
which a single-row read returns when no row matches. -/
def ErrNotFound : Err := .new "db.ErrNotFound" "not found"

/-- Modelled from the spec: the transaction handle the unit of work receives.
`DB` is the transaction's view of the tables, `issued` the statements sent so
far in this transaction, and `fault k` the error with which the datastore
rejects the statement sent in position `k` (connection loss, cancellation,
constraint violation), if it rejects it. -/
structure Tx where
  DB : Database
  issued : List Stmt
  fault : Nat → Option Err

/-- Modelled from the spec: the effect of an accepted statement on the tables.
An insert appends its row, the update of the commit linker sets `commit_id` on
the rows of its key, a read changes nothing. -/
def Stmt.apply : Stmt → Database → Database
  | .insertRun row, d => { d with actions_runs := d.actions_runs ++ [row] }
  | .insertRunHook row, d => { d with actions_run_hooks := d.actions_run_hooks ++ [row] }
  | .updateCommitID repository_id run_id commit_id, d =>
      { d with actions_runs := d.actions_runs.map fun r =>
          if r.repository_id = repository_id ∧ r.run_id = run_id then
            { r with commit_id := commit_id } else r }
  | .selectRun _ _, d => d
  | .selectRunHook _ _ _, d => d

/-- Modelled from the spec: `tx.Exec`, the parameterized execute of the
transaction handle.  The statement is recorded as sent; the datastore either
rejects it with an error or applies it to the transaction's view. -/
def Tx.Exec (tx : Tx) (stmt : Stmt) : Except Err Unit × Tx :=
  let sent := { tx with issued := tx.issued ++ [stmt] }
  match tx.fault tx.issued.length with
  | some err => (.error err, sent)
  | none => (.ok (), { sent with DB := stmt.apply tx.DB })

/-- Modelled from the spec: `tx.Get` on `actions_runs` by key, the single-row
read of the transaction handle: the first matching row, `ErrNotFound` when no
row matches, or the error the datastore rejects the query with. -/
def Tx.GetRun (tx : Tx) (repository_id run_id : String) : Except Err RunRow × Tx :=
  let sent := { tx with issued := tx.issued ++ [Stmt.selectRun repository_id run_id] }
  match tx.fault tx.issued.length with
  | some err => (.error err, sent)
  | none =>
    match tx.DB.actions_runs.find?
        (fun r => decide (r.repository_id = repository_id ∧ r.run_id = run_id)) with
    | some row => (.ok row, sent)
    | none => (.error ErrNotFound, sent)

/-- Modelled from the spec: `tx.Get` on `actions_run_hooks` by key. -/
def Tx.GetRunHook (tx : Tx) (repository_id run_id hook_run_id : String) :
    Except Err HookRow × Tx :=
  let sent := { tx with
    issued := tx.issued ++ [Stmt.selectRunHook repository_id run_id hook_run_id] }
  match tx.fault tx.issued.length with
  | some err => (.error err, sent)
  | none =>
    match tx.DB.actions_run_hooks.find?
        (fun r => decide (r.repository_id = repository_id ∧ r.run_id = run_id ∧
          r.hook_run_id = hook_run_id)) with
    | some row => (.ok row, sent)
    | none => (.error ErrNotFound, sent)

/-- Modelled from the spec: `Database.Transact`, the atomic transact
operation.  The unit of work runs on a transaction handle over the current
tables; when it returns an error the transaction is rolled back and the tables
stay as they were, otherwise its writes are committed.  The error of the unit
of work is returned as it is.  The third component is the list of statements
the datastore was sent. -/
def Transact {α : Type} (d : Database) (fault : Nat → Option Err)
    (fn : Tx → Except Err α × Tx) : Except Err α × Database × List Stmt :=
  match fn { DB := d, issued := [], fault := fault } with
  | (.ok v, tx) => (.ok v, tx.DB, tx.issued)
  | (.error err, tx) => (.error err, d, tx.issued)

end db

namespace actions

open db

/-! ## The service and its environment -/

/-- What a call of the service can change or leave a trace in: the tables
behind `Service.DB`, the statements the datastore has been sent, the hook
invocations made (the position of the task in its run and the writer it was
handed) and the number of identifiers `NewRunID` has produced. -/
structure World where
  DB : Database
  issued : List Stmt
  invoked : List (Nat × HookOutputWriter)
  ids : Nat

/-- The collaborators of a call of `Run` that `service.go` does not define:
`idAt k` is the identifier the `k`-th call of `NewRunID` returns, `NewHook` the
hook factory, `sched` the choices of the goroutine scheduler, `startAt i` and
`endAt i` the two readings of `time.Now()` in the goroutine of task `i`, and
`fault` the behaviour of the datastore during the persisting transaction. -/
structure Env where
  idAt : Nat → String
  NewHook : ActionHook → Action → Except Err Hook
  sched : List Nat
  startAt : Nat → Time
  endAt : Nat → Time
  fault : Nat → Option Err

/-- The call `NewRunID()`, whose code is not in `service.go`: it returns the
next identifier of the environment's sequence. -/
def NewRunID (env : Env) (w : World) : String × World :=
  (env.idAt w.ids, { w with ids := w.ids + 1 })

/-- Modelled from the spec: `LoadActions(ctx, source)`, the loader's
`load(context)`: a sequence of actions or an error. -/
def LoadActions (source : Source) : Except Err (List Action) :=
  source.load

/-- Modelled from the spec: an action matches when the event type of its
trigger specification equals the event's type and its branch pattern matches
the event's branch. -/
def Action.Match (action : Action) (spec : MatchSpec) : Bool :=
  decide (action.OnEventType = spec.EventType) && action.OnBranch spec.Branch

/-- Modelled from the spec: `MatchedActions(actions, spec)`, the subset of the
actions that match, in the loader's order. -/
def MatchedActions (actions : List Action) (spec : MatchSpec) : Except Err (List Action) :=
  .ok (actions.filter fun action => action.Match spec)

def loadMatchedActions (source : Option Source) (spec : MatchSpec) :
    Except Err (List Action) :=
  match source with
  | none => .ok []
  | some source =>
    match LoadActions source with
    | .error err => .error err
    | .ok actions => MatchedActions actions spec

/-- The inner loop of `allocateTasks`, over the hooks of one action. -/
def allocateTasks.hooks (env : Env) (runID : String) (action : Action) :
    List ActionHook → List Task → World → Except Err (List Task) × World
  | [], tasks, w => (.ok tasks, w)
  | hook :: rest, tasks, w =>
    match env.NewHook hook action with
    | .error err => (.error err, w)
    | .ok h =>
      allocateTasks.hooks env runID action rest
        (tasks ++ [{ RunID := runID, HookRunID := (NewRunID env w).1, Action := action,
                     HookID := hook.ID, Hook := h, Err := none,
                     StartTime := zeroTime, EndTime := zeroTime }])
        (NewRunID env w).2

/-- The outer loop of `allocateTasks`, over the actions. -/
def allocateTasks.actions (env : Env) (runID : String) :
    List Action → List Task → World → Except Err (List Task) × World
  | [], tasks, w => (.ok tasks, w)
  | action :: rest, tasks, w =>
    match allocateTasks.hooks env runID action action.Hooks tasks w with
    | (.error err, w) => (.error err, w)
    | (.ok tasks, w) => allocateTasks.actions env runID rest tasks w

def allocateTasks (env : Env) (w : World) (runID : String) (actions : List Action) :
    Except Err (List Task) × World :=
  allocateTasks.actions env runID actions [] w

/-! ### runTasks -/

/-- The order in which the goroutines of a `multierror.Group` get to run, as
the scheduler decides it: each pending goroutine is placed among those after
it at the position the next choice selects.  Every list of choices gives an
arrangement of the pending goroutines. -/
def schedule : List Nat → List Nat → List Nat
  | choice :: choices, g :: pending =>
      (schedule choices pending).insertIdx (choice % (pending.length + 1)) g
  | [], pending => pending
  | _ :: _, [] => []

/-- The state the goroutines of `runTasks` share: the tasks (each goroutine
holds a pointer to its own), the errors appended to the group so far and the
hook invocations made so far. -/
structure Group where
  tasks : List Task
  errs : List Err
  invoked : List (Nat × HookOutputWriter)

/-- The writer `runTasks` hands to the hook of a task. -/
def runTasks.writer (deps : Deps) (task : Task) : HookOutputWriter :=
  { RunID := task.RunID, HookRunID := task.HookRunID, ActionName := task.Action.Name,
    HookID := task.HookID, Writer := deps.Output }

/-- The body of the goroutine of task `i`, on that task's record. -/
def runTasks.body (env : Env) (event : Event) (deps : Deps) (i : Nat) (task : Task) : Task :=
  let task := { task with StartTime := env.startAt i }
  let err := task.Hook.Run event (runTasks.writer deps task)
  let task :=
    match err with
    | some err =>
      { task with Err := some (Errorf ("run '" ++ task.RunID ++ "' failed on action '" ++
          task.Action.Name ++ "' hook '" ++ task.HookID ++ "': ") err) }
    | none => task
  { task with EndTime := env.endAt i }

/-- The goroutine of task `i` runs: it updates its task, the group appends the
error it returns (`task.Err`) when that is not nil. -/
def runTasks.step (env : Env) (event : Event) (deps : Deps) (g : Group) (i : Nat) : Group :=
  match g.tasks[i]? with
  | none => g
  | some task =>
    let done := runTasks.body env event deps i task
    { tasks := g.tasks.set i done,
      errs := match done.Err with
        | some err => g.errs ++ [err]
        | none => g.errs,
      invoked := g.invoked ++ [(i, runTasks.writer deps task)] }

/-- The group after `g.Wait()`: every goroutine has run, in scheduler order. -/
def runTasks.wait (env : Env) (event : Event) (deps : Deps) (tasks : List Task) : Group :=
  (schedule env.sched (List.range tasks.length)).foldl (runTasks.step env event deps)
    { tasks := tasks, errs := [], invoked := [] }

/-- The result of `runTasks` is its error (`ErrorOrNil` of the group's error),
the tasks as the goroutines left them, and the world with the invocations. -/
def runTasks (env : Env) (w : World) (tasks : List Task) (event : Event) (deps : Deps) :
    Option GoError × List Task × World :=
  let g := runTasks.wait env event deps tasks
  (if g.errs.length = 0 then none else some (GoError.multi g.errs),
   g.tasks,
   { w with invoked := w.invoked ++ g.invoked })

/-! ### insertRunInformation -/

def getMaxEndTime (tasks : List Task) : Time :=
  tasks.foldl
    (fun endTime task => if task.EndTime.After endTime then task.EndTime else endTime)
    zeroTime

/-- The row `insertRunInformation` inserts into `actions_runs`. -/
def insertRunInformation.runRow (runID : String) (event : Event) (tasks : List Task)
    (runErr : Option GoError) : RunRow :=
  { repository_id := event.RepositoryID, run_id := runID, event_type := event.Type_,
    start_time := event.Time.wall, end_time := (getMaxEndTime tasks).wall,
    branch_id := event.BranchID,
    source_ref := event.SourceRef, commit_id := "", passed := runErr.isNone }

/-- The row `insertRunInformation` inserts into `actions_run_hooks` for a task. -/
def insertRunInformation.taskRow (runID : String) (event : Event) (task : Task) : HookRow :=
  { repository_id := event.RepositoryID, run_id := runID, hook_run_id := task.HookRunID,
    event_type := event.Type_, action_name := task.Action.Name, hook_id := task.HookID,
    start_time := task.StartTime.wall, end_time := task.EndTime.wall,
    passed := task.Err.isNone }

/-- The loop of the unit of work over the tasks. -/
def insertRunInformation.tasks (runID : String) (event : Event) :
    List Task → Tx → Except Err Unit × Tx
  | [], tx => (.ok (), tx)
  | task :: rest, tx =>
    match tx.Exec (.insertRunHook (insertRunInformation.taskRow runID event task)) with
    | (.error err, tx) =>
      (.error (Errorf ("insert run hook information (" ++ task.Action.Name ++ " " ++
        task.HookID ++ "): ") err), tx)
    | (.ok _, tx) => insertRunInformation.tasks runID event rest tx

/-- The unit of work `insertRunInformation` hands to `Transact`. -/
def insertRunInformation.txFn (runID : String) (event : Event) (tasks : List Task)
    (runErr : Option GoError) (tx : Tx) : Except Err Unit × Tx :=
  match tx.Exec (.insertRun (insertRunInformation.runRow runID event tasks runErr)) with
  | (.error err, tx) => (.error (Errorf "insert run information: " err), tx)
  | (.ok _, tx) => insertRunInformation.tasks runID event tasks tx

def insertRunInformation (env : Env) (w : World) (runID : String) (event : Event)
    (tasks : List Task) (runErr : Option GoError) : Option Err × World :=
  if tasks.length = 0 then (none, w)
  else
    match Transact w.DB env.fault (insertRunInformation.txFn runID event tasks runErr) with
    | (.error err, d, sent) => (some err, { w with DB := d, issued := w.issued ++ sent })
    | (.ok _, d, sent) => (none, { w with DB := d, issued := w.issued ++ sent })

/-! ### Run -/

def Run (env : Env) (w : World) (event : Event) (deps : Deps) :
    (String × Option GoError) × World :=
  let runID := (NewRunID env w).1
  let w := (NewRunID env w).2
  match loadMatchedActions deps.Source { EventType := event.Type_, Branch := event.BranchID } with
  | .error err => ((runID, some (.single err)), w)
  | .ok actions =>
    if actions.length = 0 then ((runID, none), w)
    else
      match allocateTasks env w runID actions with
      | (.error err, w) => ((runID, some (.single err)), w)
      | (.ok tasks, w) =>
        match runTasks env w tasks event deps with
        | (runErr, tasks, w) =>
          match insertRunInformation env w runID event tasks runErr with
          | (some err, w) => ((runID, some (.single err)), w)
          | (none, w) => ((runID, runErr), w)

/-! ### Commit linker and readers -/

def UpdateCommitID (fault : Nat → Option Err) (w : World)
    (repositoryID runID commitID : String) : Option Err × World :=
  match Transact w.DB fault (fun tx =>
      match tx.Exec (.updateCommitID repositoryID runID commitID) with
      | (.error err, tx) => (.error (Errorf "update run commit_id: " err), tx)
      | (.ok _, tx) => (.ok (), tx)) with
  | (.error err, d, sent) => (some err, { w with DB := d, issued := w.issued ++ sent })
  | (.ok _, d, sent) => (none, { w with DB := d, issued := w.issued ++ sent })

def GetRunResult (fault : Nat → Option Err) (w : World) (repositoryID runID : String) :
    (Option RunResult × Option Err) × World :=
  match Transact w.DB fault (fun tx =>
      match tx.GetRun repositoryID runID with
      | (.error err, tx) => (.error (Errorf "get run result: " err), tx)
      | (.ok row, tx) =>
        (.ok ({ RunID := runID, BranchID := row.branch_id, SourceRef := row.source_ref,
                EventType := row.event_type, StartTime := ⟨row.start_time, none⟩,
                EndTime := ⟨row.end_time, none⟩, Passed := row.passed,
                CommitID := row.commit_id } : RunResult), tx)) with
  | (.error err, d, sent) =>
    if errorsIs err db.ErrNotFound then
      ((none, some ErrNotFound), { w with DB := d, issued := w.issued ++ sent })
    else ((none, some err), { w with DB := d, issued := w.issued ++ sent })
  | (.ok res, d, sent) => ((some res, none), { w with DB := d, issued := w.issued ++ sent })

def GetTaskResult (fault : Nat → Option Err) (w : World)
    (repositoryID runID hookRunID : String) : (Option TaskResult × Option Err) × World :=
  match Transact w.DB fault (fun tx =>
      match tx.GetRunHook repositoryID runID hookRunID with
      | (.error err, tx) => (.error (Errorf "get task result: " err), tx)
      | (.ok row, tx) =>
        (.ok ({ RunID := runID, HookRunID := hookRunID, HookID := row.hook_id,
                ActionName := row.action_name, StartTime := ⟨row.start_time, none⟩,
                EndTime := ⟨row.end_time, none⟩, Passed := row.passed } : TaskResult), tx)) with
  | (.error err, d, sent) =>
    if errorsIs err db.ErrNotFound then
      ((none, some ErrNotFound), { w with DB := d, issued := w.issued ++ sent })
    else ((none, some err), { w with DB := d, issued := w.issued ++ sent })
  | (.ok res, d, sent) => ((some res, none), { w with DB := d, issued := w.issued ++ sent })

/-! ## Definitions used in the statements -/

/-- A hook that succeeds. -/
def passingHook : Hook := { Run := fun _ _ => none }

/-- A hook that fails with a timeout. -/
def failingHook : Hook := { Run := fun _ _ => some (.new "hook.timeout" "timeout") }

/-- An action on pre-commit events of every branch, with two hooks. -/
def sampleAction : Action :=
  { Name := "checks", OnEventType := "pre-commit", OnBranch := fun _ => true,
    Hooks := [{ ID := "H1", Type_ := "webhook" }, { ID := "H2", Type_ := "webhook" }] }

/-- A task of `sampleAction` with the given hook, error and end time. -/
def sampleTask (hookRunID : String) (hook : Hook) (err : Option Err) (endTime : Time) : Task :=
  { RunID := "run-0", HookRunID := hookRunID, Action := sampleAction, HookID := "H1",
    Hook := hook, Err := err, StartTime := zeroTime, EndTime := endTime }

/-- Two tasks whose end times are readings of `time.Now()`: wall clock 5 and
9, monotonic clock 105 and 109. -/
def sampleEndTimes : List Task :=
  [sampleTask "hr-1" passingHook none ⟨5, some 105⟩,
   sampleTask "hr-2" passingHook none ⟨9, some 109⟩]

/-- A store with the run row of run-0 in repo (commit_id still empty), the run
row of another run, and one task row. -/
def sampleWorld : World :=
  { DB :=
      { actions_runs :=
          [⟨"repo", "run-0", "pre-commit", 1, 9, "main", "src", "", true⟩,
           ⟨"repo", "run-1", "pre-commit", 2, 7, "dev", "src", "c0", false⟩],
        actions_run_hooks :=
          [⟨"repo", "run-0", "hr-1", "pre-commit", "checks", "H1", 3, 9, true⟩] },
    issued := [], invoked := [], ids := 3 }

/-- A datastore that rejects no statement. -/
def noFault : Nat → Option Err := fun _ => none

/-- The insert statement of a task row. -/
def insertRunInformation.taskStmt (runID : String) (event : Event) (task : Task) : Stmt :=
  .insertRunHook (insertRunInformation.taskRow runID event task)

/-- The statements a complete `insertRunInformation` transaction sends: the
insert of the run row, then the insert of each task row in task order. -/
def insertRunInformation.stmts (runID : String) (event : Event) (tasks : List Task)
    (runErr : Option GoError) : List Stmt :=
  .insertRun (insertRunInformation.runRow runID event tasks runErr) ::
    tasks.map (insertRunInformation.taskStmt runID event)

/-- The (matched action, declared hook) pairs, in action order then hook
order. -/
def hookPairs : List Action → List (Action × ActionHook)
  | [] => []
  | action :: rest => action.Hooks.map (fun hook => (action, hook)) ++ hookPairs rest

/-- The task `allocateTasks` builds for a pair once its hook is constructed,
with the identifier `NewRunID` returns on its `k`-th call. -/
def allocateTasks.task (env : Env) (runID : String) (k : Nat) (p : Action × ActionHook)
    (h : Hook) : Task :=
  { RunID := runID, HookRunID := env.idAt k, Action := p.1, HookID := p.2.ID, Hook := h,
    Err := none, StartTime := zeroTime, EndTime := zeroTime }

/-- The allocation over the list of pairs: the first construction error, or
one task per pair. -/
def allocateTasks.flat (env : Env) (runID : String) :
    Nat → List (Action × ActionHook) → Except Err (List Task)
  | _, [] => .ok []
  | k, p :: rest =>
    match env.NewHook p.2 p.1 with
    | .error err => .error err
    | .ok h =>
      match allocateTasks.flat env runID (k + 1) rest with
      | .error err => .error err
      | .ok ts => .ok (allocateTasks.task env runID k p h :: ts)

/-- The identifiers `NewRunID` returns from its fourth call on. -/
def sampleIDs : Nat → String
  | 3 => "run-3"
  | 4 => "hr-4"
  | 5 => "hr-5"
  | _ => "later"

/-- The hook factory of the scenario: webhooks only, H2 failing when run. -/
def sampleNewHook (hook : ActionHook) (_ : Action) : Except Err Hook :=
  if hook.Type_ = "webhook" then .ok (if hook.ID = "H2" then failingHook else passingHook)
  else .error (.new "actions.ErrUnknownHookType" "unknown hook type")

/-- The environment of the scenario: the goroutine of the second task runs
first, the clock readings are those of `time.Now()` (wall and monotonic), the
datastore rejects nothing. -/
def sampleEnv : Env :=
  { idAt := sampleIDs, NewHook := sampleNewHook, sched := [1],
    startAt := fun i => ⟨10 + (i : Int), some (1010 + (i : Int))⟩,
    endAt := fun i => ⟨20 + (i : Int), some (1020 + (i : Int))⟩, fault := noFault }

def sampleEvent : Event := ⟨"repo", "pre-commit", "main", "src", ⟨5, some 1005⟩⟩

def sampleDeps : Deps := ⟨some ⟨.ok [sampleAction]⟩, ⟨"out"⟩⟩

/-- The tasks `allocateTasks` builds in the scenario. -/
def sampleTasks : List Task :=
  [allocateTasks.task sampleEnv "run-3" 4 (sampleAction, ⟨"H1", "webhook"⟩) passingHook,
   allocateTasks.task sampleEnv "run-3" 5 (sampleAction, ⟨"H2", "webhook"⟩) failingHook]

/-- The world after allocation in the scenario. -/
def sampleAllocated : World := { sampleWorld with ids := 6 }

/-- An action whose second hook is of a type the factory does not know. -/
def brokenAction : Action :=
  { Name := "broken", OnEventType := "pre-commit", OnBranch := fun _ => true,
    Hooks := [{ ID := "H1", Type_ := "webhook" }, { ID := "H9", Type_ := "carrier-pigeon" }] }

/-- A datastore that rejects the second statement of a transaction. -/
def faultAtSecond : Nat → Option Err :=
  fun k => if k = 1 then some (.new "db.conn" "connection reset") else none

/-! # Properties -/

/-! ## getMaxEndTime -/

/-- The fold of `getMaxEndTime` over tasks whose end times `After` compares
by one key with every value of a class that holds the start and the end times:
the result is in the class, its key is not below that of the start or of any
task, and it is the start or the end time of one of the tasks. -/
theorem getMaxEndTime_fold (key : Time → Int) (P : Time → Prop) (tasks : List Task)
    (hP : ∀ t ∈ tasks, P t.EndTime)
    (hafter : ∀ t ∈ tasks, ∀ u, P u → t.EndTime.After u = decide (key u < key t.EndTime)) :
    ∀ start : Time, P start →
      P (tasks.foldl (fun endTime task =>
          if task.EndTime.After endTime then task.EndTime else endTime) start) ∧
      key start ≤ key (tasks.foldl (fun endTime task =>
          if task.EndTime.After endTime then task.EndTime else endTime) start) ∧
      (∀ t ∈ tasks, key t.EndTime ≤ key (tasks.foldl (fun endTime task =>
          if task.EndTime.After endTime then task.EndTime else endTime) start)) ∧
      (tasks.foldl (fun endTime task =>
          if task.EndTime.After endTime then task.EndTime else endTime) start = start ∨
        ∃ t ∈ tasks, tasks.foldl (fun endTime task =>
          if task.EndTime.After endTime then task.EndTime else endTime) start = t.EndTime) := by
  induction tasks with
  | nil => intro start hs; exact ⟨hs, le_refl _, by simp, Or.inl rfl⟩
  | cons task rest ih =>
    intro start hs
    have hPrest : ∀ t ∈ rest, P t.EndTime := fun t ht => hP t (List.mem_cons_of_mem _ ht)
    have hArest : ∀ t ∈ rest, ∀ u, P u →
        t.EndTime.After u = decide (key u < key t.EndTime) :=
      fun t ht => hafter t (List.mem_cons_of_mem _ ht)
    have hcmp := hafter task (List.mem_cons_self _ _) start hs
    simp only [List.foldl_cons]
    by_cases h : key start < key task.EndTime
    · have htrue : task.EndTime.After start = true := by rw [hcmp]; simpa using h
      simp only [htrue, if_true]
      obtain ⟨h0, h1, h2, h3⟩ := ih hPrest hArest task.EndTime (hP task (List.mem_cons_self _ _))
      refine ⟨h0, by omega, ?_, ?_⟩
      · intro t ht
        rcases List.mem_cons.1 ht with rfl | ht
        · exact h1
        · exact h2 t ht
      · rcases h3 with h3 | ⟨t, ht, h3⟩
        · exact Or.inr ⟨task, List.mem_cons_self _ _, h3⟩
        · exact Or.inr ⟨t, List.mem_cons_of_mem _ ht, h3⟩
    · have hfalse : task.EndTime.After start = false := by rw [hcmp]; simpa using h
      simp only [hfalse, Bool.false_eq_true, if_false]
      obtain ⟨h0, h1, h2, h3⟩ := ih hPrest hArest start hs
      refine ⟨h0, h1, ?_, ?_⟩
      · intro t ht
        rcases List.mem_cons.1 ht with rfl | ht
        · omega
        · exact h2 t ht
      · rcases h3 with h3 | ⟨t, ht, h3⟩
        · exact Or.inl h3
        · exact Or.inr ⟨t, List.mem_cons_of_mem _ ht, h3⟩

/-- `After` on two values that carry a monotonic clock reading compares the
monotonic readings. -/
theorem Time.After_mono (t u : Time) (ht : t.mono ≠ none) (hu : u.mono ≠ none) :
    t.After u = decide (u.mono.getD 0 < t.mono.getD 0) := by
  unfold Time.After
  cases htm : t.mono with
  | none => exact absurd htm ht
  | some tm =>
    cases hum : u.mono with
    | none => exact absurd hum hu
    | some um => simp

/-- `After` of a value that carries no monotonic clock reading compares the
wall clock readings. -/
theorem Time.After_wall (t u : Time) (ht : t.mono = none) :
    t.After u = decide (u.wall < t.wall) := by
  unfold Time.After
  rw [ht]

/-- C8, as stated, fails: for the one-task list whose task ended one unit
before the zero time, `getMaxEndTime` is the zero time, which is the end time
of no task in the list. -/
theorem getMaxEndTime_not_always_attained :
    ¬ ∀ tasks : List Task, tasks ≠ [] →
      (∃ t ∈ tasks, getMaxEndTime tasks = t.EndTime) ∧
      (∀ t ∈ tasks, t.EndTime.After (getMaxEndTime tasks) = false) := by
  intro h
  obtain ⟨⟨t, ht, heq⟩, _⟩ := h [sampleTask "hr-1" passingHook none ⟨-1, none⟩] (by simp)
  simp only [List.mem_singleton] at ht
  subst ht
  revert heq
  decide

/-- Beyond lists of one kind of reading the result need not bound the end
times: with end times that mix readings with and without a monotonic clock, and
with monotonic readings whose first end time is before the zero time, a task
of the list has an end time after the result of `getMaxEndTime`. -/
theorem getMaxEndTime_mixed_readings :
    (sampleTask "hr-1" passingHook none ⟨10, some 1⟩).EndTime.After
      (getMaxEndTime [sampleTask "hr-1" passingHook none ⟨10, some 1⟩,
        sampleTask "hr-2" passingHook none ⟨5, some 50⟩,
        sampleTask "hr-3" passingHook none ⟨7, none⟩]) = true ∧
    (sampleTask "hr-1" passingHook none ⟨-5, some 100⟩).EndTime.After
      (getMaxEndTime [sampleTask "hr-1" passingHook none ⟨-5, some 100⟩,
        sampleTask "hr-2" passingHook none ⟨3, some 1⟩]) = true := by
  decide

/-- C8, amended: for every task list in which either every end time carries a
monotonic clock reading and the end time of the first task is after the zero
time (as when every end time is a reading of `time.Now()`), or no end time
carries a monotonic clock reading and some end time is not before the zero
time, the result of `getMaxEndTime` is the end time of a task of the list and
no task of the list has an end time after it, as `Time.After` decides; the
end_time written to the run row is the wall clock reading of that result. -/
theorem getMaxEndTime_is_max (runID : String) (event : Event) (runErr : Option GoError)
    (tasks : List Task)
    (h : ((∀ t ∈ tasks, t.EndTime.mono ≠ none) ∧
          ∃ first rest, tasks = first :: rest ∧ first.EndTime.After zeroTime = true) ∨
        ((∀ t ∈ tasks, t.EndTime.mono = none) ∧
          ∃ t ∈ tasks, zeroTime.After t.EndTime = false)) :
    (insertRunInformation.runRow runID event tasks runErr).end_time =
      (getMaxEndTime tasks).wall ∧
    (∃ t ∈ tasks, getMaxEndTime tasks = t.EndTime) ∧
    (∀ t ∈ tasks, t.EndTime.After (getMaxEndTime tasks) = false) := by
  refine ⟨rfl, ?_⟩
  rcases h with ⟨hmono, first, rest, rfl, hfirst⟩ | ⟨hwall, t0, ht0, hzero⟩
  · have hstep : getMaxEndTime (first :: rest) =
        rest.foldl (fun endTime task =>
          if task.EndTime.After endTime then task.EndTime else endTime) first.EndTime := by
      simp [getMaxEndTime, hfirst]
    have hPfirst : first.EndTime.mono ≠ none := hmono first (List.mem_cons_self _ _)
    obtain ⟨h0, h1, h2, h3⟩ := getMaxEndTime_fold (fun u => u.mono.getD 0)
      (fun u => u.mono ≠ none) rest
      (fun t ht => hmono t (List.mem_cons_of_mem _ ht))
      (fun t ht u hu => Time.After_mono _ _ (hmono t (List.mem_cons_of_mem _ ht)) hu)
      first.EndTime hPfirst
    rw [hstep]
    refine ⟨?_, ?_⟩
    · rcases h3 with h3 | ⟨t, ht, h3⟩
      · exact ⟨first, List.mem_cons_self _ _, h3⟩
      · exact ⟨t, List.mem_cons_of_mem _ ht, h3⟩
    · intro t ht
      rw [Time.After_mono _ _ (hmono t ht) h0]
      have hle : t.EndTime.mono.getD 0 ≤ (rest.foldl (fun endTime task =>
          if task.EndTime.After endTime then task.EndTime else endTime)
          first.EndTime).mono.getD 0 := by
        rcases List.mem_cons.1 ht with rfl | ht
        · exact h1
        · exact h2 t ht
      simpa using hle
  · obtain ⟨-, -, h2, h3⟩ := getMaxEndTime_fold (fun u => u.wall) (fun _ => True) tasks
      (fun _ _ => trivial) (fun t ht u _ => Time.After_wall _ _ (hwall t ht)) zeroTime trivial
    have hdef : getMaxEndTime tasks = tasks.foldl (fun endTime task =>
        if task.EndTime.After endTime then task.EndTime else endTime) zeroTime := rfl
    rw [← hdef] at h2 h3
    refine ⟨?_, ?_⟩
    · rcases h3 with h3 | h3
      · refine ⟨t0, ht0, ?_⟩
        have hle : t0.EndTime.wall ≤ (getMaxEndTime tasks).wall := h2 t0 ht0
        rw [h3] at hle ⊢
        have hge : ¬ t0.EndTime.wall < 0 := by
          have := hzero
          rw [Time.After] at this
          simpa [zeroTime, hwall t0 ht0] using this
        have hw : t0.EndTime.wall = 0 := by
          have : t0.EndTime.wall ≤ 0 := hle
          omega
        have hm := hwall t0 ht0
        cases hE : t0.EndTime with
        | mk wall mono =>
          rw [hE] at hw hm
          simp only at hw hm
          subst hw
          subst hm
          rfl
      · exact h3
    · intro t ht
      rw [Time.After_wall _ _ (hwall t ht)]
      have hle : t.EndTime.wall ≤ (getMaxEndTime tasks).wall := h2 t ht
      simpa using hle

/-- On two tasks whose end times are readings of `time.Now()` the premise of
`getMaxEndTime_is_max` holds, and the run row's end time is the wall clock
reading 9 of the task with the later monotonic reading. -/
theorem getMaxEndTime_is_max_witness :
    ((∀ t ∈ sampleEndTimes, t.EndTime.mono ≠ none) ∧
      ∃ first rest, sampleEndTimes = first :: rest ∧ first.EndTime.After zeroTime = true) ∧
    (getMaxEndTime sampleEndTimes).wall = 9 ∧
    ((insertRunInformation.runRow "run-0" sampleEvent sampleEndTimes none).end_time =
        (getMaxEndTime sampleEndTimes).wall ∧
      (∃ t ∈ sampleEndTimes, getMaxEndTime sampleEndTimes = t.EndTime) ∧
      (∀ t ∈ sampleEndTimes, t.EndTime.After (getMaxEndTime sampleEndTimes) = false)) :=
  ⟨⟨by decide, _, _, rfl, by decide⟩, by decide,
    getMaxEndTime_is_max "run-0" sampleEvent none sampleEndTimes
      (Or.inl ⟨by decide, _, _, rfl, by decide⟩)⟩

/-! ## UpdateCommitID -/

/-- What `UpdateCommitID` does to the world: on success the matching rows of
`actions_runs` get the commit identifier, on failure the tables stay; the other
table is never touched. -/
theorem UpdateCommitID_DB (fault : Nat → Option Err) (w : World)
    (repositoryID runID commitID : String) :
    (UpdateCommitID fault w repositoryID runID commitID).2.DB =
      (match (UpdateCommitID fault w repositoryID runID commitID).1 with
       | none => (Stmt.updateCommitID repositoryID runID commitID).apply w.DB
       | some _ => w.DB) ∧
    ((UpdateCommitID fault w repositoryID runID commitID).1 = none ↔ fault 0 = none) := by
  unfold UpdateCommitID Transact Tx.Exec
  cases h : fault 0 <;> simp [h]

/-- C10: when the store holds a run row keyed by (repositoryID, runID), after
`UpdateCommitID` with c1 and then a successful `UpdateCommitID` with c2 the
table `actions_runs` is the old one with the commit_id of the rows of that key
set to c2 and nothing else changed (so there is a row of that key, every row
of that key has commit_id c2, and rows of another key are as before); a third
call with c2 leaves the tables as they are; `actions_run_hooks` is the same as
before the calls. -/
theorem UpdateCommitID_overwrites (f1 f2 f3 : Nat → Option Err) (w : World)
    (repositoryID runID c1 c2 : String)
    (hrow : ∃ r ∈ w.DB.actions_runs, r.repository_id = repositoryID ∧ r.run_id = runID)
    (hok : (UpdateCommitID f2 (UpdateCommitID f1 w repositoryID runID c1).2
      repositoryID runID c2).1 = none) :
    let w1 := (UpdateCommitID f1 w repositoryID runID c1).2
    let w2 := (UpdateCommitID f2 w1 repositoryID runID c2).2
    let w3 := (UpdateCommitID f3 w2 repositoryID runID c2).2
    w2.DB.actions_runs = w.DB.actions_runs.map (fun r =>
      if r.repository_id = repositoryID ∧ r.run_id = runID then { r with commit_id := c2 }
      else r) ∧
    (∃ r ∈ w2.DB.actions_runs, r.repository_id = repositoryID ∧ r.run_id = runID) ∧
    (∀ r ∈ w2.DB.actions_runs, r.repository_id = repositoryID ∧ r.run_id = runID →
      r.commit_id = c2) ∧
    w3.DB = w2.DB ∧
    w2.DB.actions_run_hooks = w.DB.actions_run_hooks := by
  intro w1 w2 w3
  have e1 := (UpdateCommitID_DB f1 w repositoryID runID c1).1
  have e2 := (UpdateCommitID_DB f2 w1 repositoryID runID c2).1
  have e3 := (UpdateCommitID_DB f3 w2 repositoryID runID c2).1
  have hok' : (UpdateCommitID f2 w1 repositoryID runID c2).1 = none := hok
  rw [hok'] at e2
  have hruns : w2.DB.actions_runs = w.DB.actions_runs.map (fun r =>
      if r.repository_id = repositoryID ∧ r.run_id = runID then { r with commit_id := c2 }
      else r) := by
    show (UpdateCommitID f2 w1 repositoryID runID c2).2.DB.actions_runs = _
    rw [e2]
    show (w1.DB.actions_runs.map _) = _
    show ((UpdateCommitID f1 w repositoryID runID c1).2.DB.actions_runs.map _) = _
    rw [e1]
    cases (UpdateCommitID f1 w repositoryID runID c1).1 with
    | none =>
      simp only [Stmt.apply, List.map_map]
      apply List.map_congr_left
      intro r _
      by_cases hk : r.repository_id = repositoryID ∧ r.run_id = runID
      · simp [hk]
      · simp [hk]
    | some _ => rfl
  have hhooks : w2.DB.actions_run_hooks = w.DB.actions_run_hooks := by
    show (UpdateCommitID f2 w1 repositoryID runID c2).2.DB.actions_run_hooks = _
    rw [e2]
    show w1.DB.actions_run_hooks = _
    show (UpdateCommitID f1 w repositoryID runID c1).2.DB.actions_run_hooks = _
    rw [e1]
    cases (UpdateCommitID f1 w repositoryID runID c1).1 <;> rfl
  refine ⟨hruns, ?_, ?_, ?_, hhooks⟩
  · obtain ⟨r, hr, hk⟩ := hrow
    rw [hruns]
    refine ⟨{ r with commit_id := c2 }, ?_, hk⟩
    exact List.mem_map.2 ⟨r, hr, by simp [hk]⟩
  · intro r hr hk
    rw [hruns] at hr
    obtain ⟨r0, _, rfl⟩ := List.mem_map.1 hr
    by_cases hk0 : r0.repository_id = repositoryID ∧ r0.run_id = runID
    · simp [hk0]
    · simp only [hk0, if_false] at hk
  · show (UpdateCommitID f3 w2 repositoryID runID c2).2.DB = _
    rw [e3]
    cases (UpdateCommitID f3 w2 repositoryID runID c2).1 with
    | some _ => rfl
    | none =>
      have hd : w2.DB = ⟨w2.DB.actions_runs, w2.DB.actions_run_hooks⟩ := rfl
      simp only [Stmt.apply]
      rw [hd]
      simp only [Database.mk.injEq, and_true]
      rw [hruns, List.map_map]
      apply List.map_congr_left
      intro r _
      by_cases hk : r.repository_id = repositoryID ∧ r.run_id = runID
      · simp [hk]
      · simp [hk]

/-- On `sampleWorld` the premises of `UpdateCommitID_overwrites` hold, and the
row of run-0 ends with commit_id c2 while the row of run-1 keeps c0. -/
theorem UpdateCommitID_overwrites_witness :
    (∃ r ∈ sampleWorld.DB.actions_runs, r.repository_id = "repo" ∧ r.run_id = "run-0") ∧
    (UpdateCommitID noFault (UpdateCommitID noFault sampleWorld "repo" "run-0" "c1").2
      "repo" "run-0" "c2").2.DB.actions_runs =
      [⟨"repo", "run-0", "pre-commit", 1, 9, "main", "src", "c2", true⟩,
       ⟨"repo", "run-1", "pre-commit", 2, 7, "dev", "src", "c0", false⟩] ∧
    (UpdateCommitID noFault (UpdateCommitID noFault sampleWorld "repo" "run-0" "c1").2
      "repo" "run-0" "c2").2.DB.actions_run_hooks = sampleWorld.DB.actions_run_hooks :=
  ⟨by decide, by decide,
    (UpdateCommitID_overwrites noFault noFault noFault sampleWorld "repo" "run-0" "c1" "c2"
      (by decide) (by decide)).2.2.2.2⟩

/-! ## GetRunResult and GetTaskResult -/

/-- An error is in its own chain. -/
theorem errorsIs_self (err : Err) : errorsIs err err = true := by
  cases err <;> simp [errorsIs]

/-- The chain of a wrapping error holds the wrapped error. -/
theorem errorsIs_Errorf_inner (text : String) (err : Err) :
    errorsIs (Errorf text err) err = true := by
  simp [Errorf, errorsIs, errorsIs_self]

/-- A leaf made by `errors.New` is in the chain of a wrapping error exactly
when it is in the chain of the wrapped one. -/
theorem errorsIs_Errorf_new (text : String) (err : Err) (ident msg : String) :
    errorsIs (Errorf text err) (.new ident msg) = errorsIs err (.new ident msg) := by
  simp [Errorf, errorsIs]

/-- How `GetRunResult` maps the outcome of its lookup. -/
theorem GetRunResult_eq (fault : Nat → Option Err) (w : World) (repositoryID runID : String) :
    (∀ err, (Tx.GetRun ⟨w.DB, [], fault⟩ repositoryID runID).1 = .error err →
      (GetRunResult fault w repositoryID runID).1 =
        if errorsIs err db.ErrNotFound then (none, some ErrNotFound)
        else (none, some (Errorf "get run result: " err))) ∧
    (∀ row, (Tx.GetRun ⟨w.DB, [], fault⟩ repositoryID runID).1 = .ok row →
      (GetRunResult fault w repositoryID runID).1 =
        (some { RunID := runID, BranchID := row.branch_id, SourceRef := row.source_ref,
                EventType := row.event_type, StartTime := ⟨row.start_time, none⟩,
                EndTime := ⟨row.end_time, none⟩, Passed := row.passed, CommitID := row.commit_id },
          none)) := by
  unfold GetRunResult Transact
  rcases h : Tx.GetRun ⟨w.DB, [], fault⟩ repositoryID runID with ⟨res, tx⟩
  dsimp only
  rw [h]
  refine ⟨?_, ?_⟩
  · intro err he
    cases he
    have hn : errorsIs (Errorf "get run result: " err) db.ErrNotFound =
        errorsIs err db.ErrNotFound := errorsIs_Errorf_new _ _ _ _
    by_cases hb : errorsIs err db.ErrNotFound = true
    · simp [hn, hb]
    · simp [hn, hb]
  · intro row he
    cases he
    rfl

/-- How `GetTaskResult` maps the outcome of its lookup. -/
theorem GetTaskResult_eq (fault : Nat → Option Err) (w : World)
    (repositoryID runID hookRunID : String) :
    (∀ err, (Tx.GetRunHook ⟨w.DB, [], fault⟩ repositoryID runID hookRunID).1 = .error err →
      (GetTaskResult fault w repositoryID runID hookRunID).1 =
        if errorsIs err db.ErrNotFound then (none, some ErrNotFound)
        else (none, some (Errorf "get task result: " err))) ∧
    (∀ row, (Tx.GetRunHook ⟨w.DB, [], fault⟩ repositoryID runID hookRunID).1 = .ok row →
      (GetTaskResult fault w repositoryID runID hookRunID).1 =
        (some { RunID := runID, HookRunID := hookRunID, HookID := row.hook_id,
                ActionName := row.action_name, StartTime := ⟨row.start_time, none⟩,
                EndTime := ⟨row.end_time, none⟩, Passed := row.passed }, none)) := by
  unfold GetTaskResult Transact
  rcases h : Tx.GetRunHook ⟨w.DB, [], fault⟩ repositoryID runID hookRunID with ⟨res, tx⟩
  dsimp only
  rw [h]
  refine ⟨?_, ?_⟩
  · intro err he
    cases he
    have hn : errorsIs (Errorf "get task result: " err) db.ErrNotFound =
        errorsIs err db.ErrNotFound := errorsIs_Errorf_new _ _ _ _
    by_cases hb : errorsIs err db.ErrNotFound = true
    · simp [hn, hb]
    · simp [hn, hb]
  · intro row he
    cases he
    rfl

/-- The three outcomes of a point read, given the outcome of its lookup and
the text the read puts before a datastore error. -/
theorem read_outcomes {ρ σ : Type} (lookup : Except Err ρ) (conv : ρ → σ) (text : String)
    (res : Option σ × Option Err)
    (herr : ∀ err, lookup = .error err →
      res = if errorsIs err db.ErrNotFound then (none, some ErrNotFound)
        else (none, some (Errorf text err)))
    (hok : ∀ row, lookup = .ok row → res = (some (conv row), none)) :
    (res = (none, some ErrNotFound) ↔
      ∃ err, lookup = .error err ∧ errorsIs err db.ErrNotFound = true) ∧
    (∀ err, lookup = .error err → errorsIs err db.ErrNotFound = false →
      res = (none, some (Errorf text err)) ∧ Errorf text err ≠ ErrNotFound ∧
      errorsIs (Errorf text err) err = true) ∧
    (∀ row, lookup = .ok row → res = (some (conv row), none)) := by
  cases lookup with
  | error err =>
    have hres := herr err rfl
    by_cases hb : errorsIs err db.ErrNotFound = true
    · refine ⟨?_, ?_, ?_⟩
      · simp [hres, hb]
      · intro e he hf
        cases he
        rw [hb] at hf
        cases hf
      · intro row h
        cases h
    · have hb' : errorsIs err db.ErrNotFound = false := by simpa using hb
      refine ⟨?_, ?_, ?_⟩
      · simp [hres, hb', Errorf, ErrNotFound]
      · intro e he _
        cases he
        refine ⟨by simp [hres, hb'], by simp [Errorf, ErrNotFound], errorsIs_Errorf_inner _ _⟩
      · intro row h
        cases h
  | ok row =>
    have hres := hok row rfl
    refine ⟨?_, ?_, ?_⟩
    · simp [hres]
    · intro e he
      cases he
    · intro row' h
      cases h
      exact hres

/-- When the datastore does not reject the lookup, `GetRunResult` reports
`ErrNotFound` exactly when no row of `actions_runs` has the key. -/
theorem GetRunResult_absent (fault : Nat → Option Err) (w : World)
    (repositoryID runID : String) (hf : fault 0 = none) :
    (GetRunResult fault w repositoryID runID).1 = (none, some ErrNotFound) ↔
      ∀ r ∈ w.DB.actions_runs, ¬ (r.repository_id = repositoryID ∧ r.run_id = runID) := by
  obtain ⟨a1, -, -⟩ := read_outcomes _ _ _ _
    (GetRunResult_eq fault w repositoryID runID).1 (GetRunResult_eq fault w repositoryID runID).2
  rw [a1]
  simp only [Tx.GetRun, hf, List.length_nil]
  cases hfind : w.DB.actions_runs.find?
      (fun r => decide (r.repository_id = repositoryID ∧ r.run_id = runID)) with
  | none =>
    simp only [List.find?_eq_none, decide_eq_true_eq] at hfind
    simp only [Except.error.injEq, exists_eq_left']
    exact ⟨fun _ => hfind, fun _ => by decide⟩
  | some row =>
    have hmem := List.mem_of_find?_eq_some hfind
    have hkey := List.find?_some hfind
    simp only [decide_eq_true_eq] at hkey
    constructor
    · rintro ⟨err, he, -⟩
      cases he
    · intro hall
      exact absurd hkey (hall row hmem)

/-- When the datastore does not reject the lookup, `GetTaskResult` reports
`ErrNotFound` exactly when no row of `actions_run_hooks` has the key. -/
theorem GetTaskResult_absent (fault : Nat → Option Err) (w : World)
    (repositoryID runID hookRunID : String) (hf : fault 0 = none) :
    (GetTaskResult fault w repositoryID runID hookRunID).1 = (none, some ErrNotFound) ↔
      ∀ r ∈ w.DB.actions_run_hooks, ¬ (r.repository_id = repositoryID ∧ r.run_id = runID ∧
        r.hook_run_id = hookRunID) := by
  obtain ⟨b1, -, -⟩ := read_outcomes _ _ _ _
    (GetTaskResult_eq fault w repositoryID runID hookRunID).1
    (GetTaskResult_eq fault w repositoryID runID hookRunID).2
  rw [b1]
  simp only [Tx.GetRunHook, hf, List.length_nil]
  cases hfind : w.DB.actions_run_hooks.find?
      (fun r => decide (r.repository_id = repositoryID ∧ r.run_id = runID ∧
        r.hook_run_id = hookRunID)) with
  | none =>
    simp only [List.find?_eq_none, decide_eq_true_eq] at hfind
    simp only [Except.error.injEq, exists_eq_left']
    exact ⟨fun _ => hfind, fun _ => by decide⟩
  | some row =>
    have hmem := List.mem_of_find?_eq_some hfind
    have hkey := List.find?_some hfind
    simp only [decide_eq_true_eq] at hkey
    constructor
    · rintro ⟨err, he, -⟩
      cases he
    · intro hall
      exact absurd hkey (hall row hmem)

/-- C9: `GetRunResult` and `GetTaskResult` return a nil result with exactly
`ErrNotFound` if and only if the chain of the lookup's error holds the
datastore's not-found error, which for a lookup the datastore does not reject
means that no row has the key; for any other lookup error they return a nil
result and an error that is not `ErrNotFound` and wraps the lookup's error; and
when the lookup finds a row they return a result and a nil error, the result
carrying the requested run id (and hook-run id). -/
theorem GetResult_outcomes (fault : Nat → Option Err) (w : World)
    (repositoryID runID hookRunID : String) :
    ((((GetRunResult fault w repositoryID runID).1 = (none, some ErrNotFound) ↔
        ∃ err, (Tx.GetRun ⟨w.DB, [], fault⟩ repositoryID runID).1 = .error err ∧
          errorsIs err db.ErrNotFound = true) ∧
      (∀ err, (Tx.GetRun ⟨w.DB, [], fault⟩ repositoryID runID).1 = .error err →
        errorsIs err db.ErrNotFound = false →
        (GetRunResult fault w repositoryID runID).1 =
          (none, some (Errorf "get run result: " err)) ∧
        Errorf "get run result: " err ≠ ErrNotFound ∧
        errorsIs (Errorf "get run result: " err) err = true) ∧
      (∀ row, (Tx.GetRun ⟨w.DB, [], fault⟩ repositoryID runID).1 = .ok row →
        ∃ res, (GetRunResult fault w repositoryID runID).1 = (some res, none) ∧
          res.RunID = runID)) ∧
     (fault 0 = none →
       ((GetRunResult fault w repositoryID runID).1 = (none, some ErrNotFound) ↔
         ∀ r ∈ w.DB.actions_runs, ¬ (r.repository_id = repositoryID ∧ r.run_id = runID)))) ∧
    ((((GetTaskResult fault w repositoryID runID hookRunID).1 = (none, some ErrNotFound) ↔
        ∃ err, (Tx.GetRunHook ⟨w.DB, [], fault⟩ repositoryID runID hookRunID).1 = .error err ∧
          errorsIs err db.ErrNotFound = true) ∧
      (∀ err, (Tx.GetRunHook ⟨w.DB, [], fault⟩ repositoryID runID hookRunID).1 = .error err →
        errorsIs err db.ErrNotFound = false →
        (GetTaskResult fault w repositoryID runID hookRunID).1 =
          (none, some (Errorf "get task result: " err)) ∧
        Errorf "get task result: " err ≠ ErrNotFound ∧
        errorsIs (Errorf "get task result: " err) err = true) ∧
      (∀ row, (Tx.GetRunHook ⟨w.DB, [], fault⟩ repositoryID runID hookRunID).1 = .ok row →
        ∃ res, (GetTaskResult fault w repositoryID runID hookRunID).1 = (some res, none) ∧
          res.RunID = runID ∧ res.HookRunID = hookRunID)) ∧
     (fault 0 = none →
       ((GetTaskResult fault w repositoryID runID hookRunID).1 = (none, some ErrNotFound) ↔
         ∀ r ∈ w.DB.actions_run_hooks, ¬ (r.repository_id = repositoryID ∧ r.run_id = runID ∧
           r.hook_run_id = hookRunID)))) := by
  obtain ⟨a1, a2, a3⟩ := read_outcomes _ _ _ _
    (GetRunResult_eq fault w repositoryID runID).1 (GetRunResult_eq fault w repositoryID runID).2
  obtain ⟨b1, b2, b3⟩ := read_outcomes _ _ _ _
    (GetTaskResult_eq fault w repositoryID runID hookRunID).1
    (GetTaskResult_eq fault w repositoryID runID hookRunID).2
  exact ⟨⟨⟨a1, a2, fun row h => ⟨_, a3 row h, rfl⟩⟩,
      GetRunResult_absent fault w repositoryID runID⟩,
    ⟨⟨b1, b2, fun row h => ⟨_, b3 row h, rfl, rfl⟩⟩,
      GetTaskResult_absent fault w repositoryID runID hookRunID⟩⟩

/-! ## insertRunInformation -/

/-- When the datastore accepts the inserts of all the tasks, the loop succeeds,
has sent one insert per task and has appended one row per task. -/
theorem insertRunInformation.tasks_ok (runID : String) (event : Event) (tasks : List Task) :
    ∀ tx : Tx, (∀ j < tasks.length, tx.fault (tx.issued.length + j) = none) →
      insertRunInformation.tasks runID event tasks tx =
        (.ok (),
          { DB := ⟨tx.DB.actions_runs, tx.DB.actions_run_hooks ++
              tasks.map (insertRunInformation.taskRow runID event)⟩,
            issued := tx.issued ++ tasks.map (insertRunInformation.taskStmt runID event),
            fault := tx.fault }) := by
  induction tasks with
  | nil => intro tx _; simp [insertRunInformation.tasks]
  | cons task rest ih =>
    intro tx h
    have h0 : tx.fault tx.issued.length = none := by simpa using h 0 (by simp)
    simp only [insertRunInformation.tasks, Tx.Exec, h0]
    rw [ih]
    · simp [Stmt.apply, insertRunInformation.taskStmt]
    · intro j hj
      have := h (j + 1) (by simpa using hj)
      simpa [Nat.add_assoc, Nat.add_comm 1 j] using this

/-- When the datastore rejects the insert of the task in position `m` and has
accepted those before it, the loop stops there with the error that names that
task, having sent the inserts of the tasks up to and including it. -/
theorem insertRunInformation.tasks_fail (runID : String) (event : Event) (e : Err)
    (tasks : List Task) :
    ∀ (tx : Tx) (m : Nat) (task : Task), tasks[m]? = some task →
      (∀ j < m, tx.fault (tx.issued.length + j) = none) →
      tx.fault (tx.issued.length + m) = some e →
      (insertRunInformation.tasks runID event tasks tx).1 =
        .error (Errorf ("insert run hook information (" ++ task.Action.Name ++ " " ++
          task.HookID ++ "): ") e) ∧
      (insertRunInformation.tasks runID event tasks tx).2.issued =
        tx.issued ++ (tasks.take (m + 1)).map (insertRunInformation.taskStmt runID event) := by
  induction tasks with
  | nil => intro tx m task h; simp at h
  | cons task0 rest ih =>
    intro tx m task hget hbefore hfail
    cases m with
    | zero =>
      simp only [List.getElem?_cons_zero, Option.some.injEq] at hget
      subst hget
      have h0 : tx.fault tx.issued.length = some e := by simpa using hfail
      simp [insertRunInformation.tasks, Tx.Exec, h0, insertRunInformation.taskStmt]
    | succ m =>
      simp only [List.getElem?_cons_succ] at hget
      have h0 : tx.fault tx.issued.length = none := by simpa using hbefore 0 (by simp)
      simp only [insertRunInformation.tasks, Tx.Exec, h0]
      obtain ⟨r1, r2⟩ := ih
        { DB := (Stmt.insertRunHook (insertRunInformation.taskRow runID event task0)).apply tx.DB,
          issued := tx.issued ++ [Stmt.insertRunHook (insertRunInformation.taskRow runID event task0)],
          fault := tx.fault } m task hget
        (by
          intro j hj
          have := hbefore (j + 1) (by omega)
          simpa [Nat.add_assoc, Nat.add_comm 1 j] using this)
        (by simpa [Nat.add_assoc, Nat.add_comm 1 m] using hfail)
      refine ⟨r1, ?_⟩
      rw [r2]
      simp [insertRunInformation.taskStmt]

/-- When the datastore accepts every insert, `insertRunInformation` returns nil,
appends the run row and the task rows and has sent all its statements. -/
theorem insertRunInformation_ok (env : Env) (w : World) (runID : String) (event : Event)
    (tasks : List Task) (runErr : Option GoError) (hne : tasks ≠ [])
    (hok : ∀ k ≤ tasks.length, env.fault k = none) :
    insertRunInformation env w runID event tasks runErr =
      (none, { w with
        DB := { actions_runs := w.DB.actions_runs ++
                  [insertRunInformation.runRow runID event tasks runErr],
                actions_run_hooks := w.DB.actions_run_hooks ++
                  tasks.map (insertRunInformation.taskRow runID event) },
        issued := w.issued ++ insertRunInformation.stmts runID event tasks runErr }) := by
  have hlen : ¬ tasks.length = 0 := by
    intro h
    exact hne (List.length_eq_zero.1 h)
  have h0 : env.fault 0 = none := hok 0 (Nat.zero_le _)
  unfold insertRunInformation Transact insertRunInformation.txFn
  simp only [hlen, if_false, Tx.Exec, List.length_nil, h0]
  rw [insertRunInformation.tasks_ok]
  · simp [Stmt.apply, insertRunInformation.stmts]
  · intro j hj
    simpa [Nat.add_comm] using hok (j + 1) (by omega)

/-- C3: for every non-empty task list and every position `k` of the statement
the datastore rejects first (0 for the run row, `k` for task `k - 1`),
`insertRunInformation` has sent the statements up to and including the
rejected one and no further one, returns an error that wraps the datastore
error and names the failed row ("insert run information" for the run row, the
action name and hook id for a task row), and leaves both tables as they were
before the call. -/
theorem insertRunInformation_rollback (env : Env) (w : World) (runID : String)
    (event : Event) (tasks : List Task) (runErr : Option GoError) (k : Nat) (e : Err)
    (hne : tasks ≠ []) (hk : k ≤ tasks.length)
    (hbefore : ∀ j < k, env.fault j = none) (hfail : env.fault k = some e) :
    let res := insertRunInformation env w runID event tasks runErr
    res.2.DB = w.DB ∧
    res.2.issued = w.issued ++
      (insertRunInformation.stmts runID event tasks runErr).take (k + 1) ∧
    (k = 0 → res.1 = some (Errorf "insert run information: " e)) ∧
    (∀ task, 0 < k → tasks[k - 1]? = some task →
      res.1 = some (Errorf ("insert run hook information (" ++ task.Action.Name ++ " " ++
        task.HookID ++ "): ") e)) ∧
    (∃ err, res.1 = some err ∧ errorsIs err e = true) := by
  have hlen : ¬ tasks.length = 0 := by
    intro h
    exact hne (List.length_eq_zero.1 h)
  cases k with
  | zero =>
    have hres : insertRunInformation env w runID event tasks runErr =
        (some (Errorf "insert run information: " e),
          { w with issued := w.issued ++
            [Stmt.insertRun (insertRunInformation.runRow runID event tasks runErr)] }) := by
      unfold insertRunInformation Transact insertRunInformation.txFn
      simp [hlen, Tx.Exec, hfail]
    intro res
    have hr : res = _ := hres
    rw [hr]
    refine ⟨rfl, by simp [insertRunInformation.stmts], fun _ => rfl, ?_, ?_⟩
    · intro task h
      exact absurd h (Nat.lt_irrefl 0)
    · exact ⟨_, rfl, errorsIs_Errorf_inner _ _⟩
  | succ m =>
    have h0 : env.fault 0 = none := hbefore 0 (Nat.succ_pos m)
    have hm : m < tasks.length := hk
    obtain ⟨r1, r2⟩ := insertRunInformation.tasks_fail runID event e tasks
      { DB := (Stmt.insertRun (insertRunInformation.runRow runID event tasks runErr)).apply w.DB,
        issued := [Stmt.insertRun (insertRunInformation.runRow runID event tasks runErr)],
        fault := env.fault } m tasks[m] (List.getElem?_eq_getElem hm)
      (by
        intro j hj
        simpa [Nat.add_comm] using hbefore (j + 1) (by omega))
      (by simpa [Nat.add_comm] using hfail)
    have hres : insertRunInformation env w runID event tasks runErr =
        (some (Errorf ("insert run hook information (" ++ tasks[m].Action.Name ++ " " ++
            tasks[m].HookID ++ "): ") e),
          { w with issued := w.issued ++
            (insertRunInformation.stmts runID event tasks runErr).take (m + 1 + 1) }) := by
      unfold insertRunInformation Transact insertRunInformation.txFn
      simp only [hlen, if_false, Tx.Exec, List.length_nil, h0, List.nil_append]
      have hpair : insertRunInformation.tasks runID event tasks
          { DB := (Stmt.insertRun
              (insertRunInformation.runRow runID event tasks runErr)).apply w.DB,
            issued := [Stmt.insertRun (insertRunInformation.runRow runID event tasks runErr)],
            fault := env.fault } =
          (Except.error (Errorf ("insert run hook information (" ++ tasks[m].Action.Name ++
              " " ++ tasks[m].HookID ++ "): ") e),
            (insertRunInformation.tasks runID event tasks
              { DB := (Stmt.insertRun
                  (insertRunInformation.runRow runID event tasks runErr)).apply w.DB,
                issued :=
                  [Stmt.insertRun (insertRunInformation.runRow runID event tasks runErr)],
                fault := env.fault }).2) := Prod.ext r1 rfl
      rw [hpair]
      simp [r2, insertRunInformation.stmts, List.map_take]
    intro res
    have hr : res = _ := hres
    rw [hr]
    refine ⟨rfl, rfl, ?_, ?_, ?_⟩
    · intro h
      exact absurd h (Nat.succ_ne_zero m)
    · intro task _ hget
      simp only [Nat.add_sub_cancel, List.getElem?_eq_getElem hm, Option.some.injEq] at hget
      subst hget
      rfl
    · exact ⟨_, rfl, errorsIs_Errorf_inner _ _⟩

/-! ## allocateTasks -/

theorem allocateTasks.flat_append (env : Env) (runID : String)
    (l1 l2 : List (Action × ActionHook)) :
    ∀ k, allocateTasks.flat env runID k (l1 ++ l2) =
      match allocateTasks.flat env runID k l1 with
      | .error err => .error err
      | .ok ts1 =>
        match allocateTasks.flat env runID (k + l1.length) l2 with
        | .error err => .error err
        | .ok ts2 => .ok (ts1 ++ ts2) := by
  induction l1 with
  | nil =>
    intro k
    simp only [List.nil_append, allocateTasks.flat, List.length_nil, Nat.add_zero]
    cases allocateTasks.flat env runID k l2 <;> rfl
  | cons p rest ih =>
    intro k
    rw [List.cons_append]
    simp only [allocateTasks.flat, List.length_cons]
    cases env.NewHook p.2 p.1 with
    | error err => rfl
    | ok h =>
      simp only [ih (k + 1)]
      cases allocateTasks.flat env runID (k + 1) rest with
      | error err => rfl
      | ok ts1 =>
        have hk : k + 1 + rest.length = k + (rest.length + 1) := by omega
        simp only [hk]
        cases allocateTasks.flat env runID (k + (rest.length + 1)) l2 <;> rfl

/-- The loop over the hooks of an action against the allocation over its
pairs: it fails with the same error, touching only the identifier count, or
appends the same tasks and has drawn one identifier per hook. -/
theorem allocateTasks.hooks_spec (env : Env) (runID : String) (action : Action)
    (hooks : List ActionHook) :
    ∀ (tasks : List Task) (w : World),
      (∃ err n, allocateTasks.hooks env runID action hooks tasks w =
          (.error err, { w with ids := n }) ∧
        allocateTasks.flat env runID w.ids (hooks.map fun hook => (action, hook)) =
          .error err) ∨
      (∃ ts, allocateTasks.hooks env runID action hooks tasks w =
          (.ok (tasks ++ ts), { w with ids := w.ids + hooks.length }) ∧
        allocateTasks.flat env runID w.ids (hooks.map fun hook => (action, hook)) = .ok ts) := by
  induction hooks with
  | nil =>
    intro tasks w
    exact Or.inr ⟨[], by simp [allocateTasks.hooks], rfl⟩
  | cons hook rest ih =>
    intro tasks w
    simp only [allocateTasks.hooks, List.map_cons, allocateTasks.flat]
    cases hnew : env.NewHook hook action with
    | error err => exact Or.inl ⟨err, w.ids, rfl, rfl⟩
    | ok h =>
      simp only []
      rcases ih (tasks ++ [allocateTasks.task env runID w.ids (action, hook) h])
          (NewRunID env w).2 with ⟨err, n, h1, h2⟩ | ⟨ts, h1, h2⟩
      · refine Or.inl ⟨err, n, h1, ?_⟩
        · have h2' : allocateTasks.flat env runID (w.ids + 1)
              (rest.map fun hook => (action, hook)) = .error err := h2
          rw [h2']
      · refine Or.inr ⟨allocateTasks.task env runID w.ids (action, hook) h :: ts, ?_, ?_⟩
        · refine h1.trans ?_
          simp [NewRunID, Nat.add_assoc, Nat.add_comm 1]
        · have h2' : allocateTasks.flat env runID (w.ids + 1)
              (rest.map fun hook => (action, hook)) = .ok ts := h2
          rw [h2']

/-- The loop over the actions against the allocation over all the pairs. -/
theorem allocateTasks.actions_spec (env : Env) (runID : String) (actions : List Action) :
    ∀ (tasks : List Task) (w : World),
      (∃ err n, allocateTasks.actions env runID actions tasks w =
          (.error err, { w with ids := n }) ∧
        allocateTasks.flat env runID w.ids (hookPairs actions) = .error err) ∨
      (∃ ts, allocateTasks.actions env runID actions tasks w =
          (.ok (tasks ++ ts), { w with ids := w.ids + (hookPairs actions).length }) ∧
        allocateTasks.flat env runID w.ids (hookPairs actions) = .ok ts) := by
  induction actions with
  | nil =>
    intro tasks w
    exact Or.inr ⟨[], by simp [allocateTasks.actions, hookPairs], rfl⟩
  | cons action rest ih =>
    intro tasks w
    simp only [allocateTasks.actions, hookPairs, allocateTasks.flat_append]
    rcases allocateTasks.hooks_spec env runID action action.Hooks tasks w with
      ⟨err, n, h1, h2⟩ | ⟨ts, h1, h2⟩
    · exact Or.inl ⟨err, n, by rw [h1], by rw [h2]⟩
    · rw [h1, h2]
      simp only []
      rcases ih (tasks ++ ts) { w with ids := w.ids + action.Hooks.length } with
        ⟨err, n, g1, g2⟩ | ⟨ts2, g1, g2⟩
      · refine Or.inl ⟨err, n, by rw [g1], ?_⟩
        simp only [List.length_map]
        have g2' : allocateTasks.flat env runID (w.ids + action.Hooks.length)
            (hookPairs rest) = .error err := g2
        rw [g2']
      · refine Or.inr ⟨ts ++ ts2, ?_, ?_⟩
        · rw [g1]
          simp [Nat.add_assoc]
        · simp only [List.length_map]
          have g2' : allocateTasks.flat env runID (w.ids + action.Hooks.length)
              (hookPairs rest) = .ok ts2 := g2
          rw [g2']

/-- The result of `allocateTasks` is the allocation over the pairs; the call
changes nothing in the world but the identifier count. -/
theorem allocateTasks_spec (env : Env) (w : World) (runID : String) (actions : List Action) :
    (∃ err n, allocateTasks env w runID actions = (.error err, { w with ids := n }) ∧
      allocateTasks.flat env runID w.ids (hookPairs actions) = .error err) ∨
    (∃ ts, allocateTasks env w runID actions =
        (.ok ts, { w with ids := w.ids + (hookPairs actions).length }) ∧
      allocateTasks.flat env runID w.ids (hookPairs actions) = .ok ts) := by
  rcases allocateTasks.actions_spec env runID actions [] w with
    ⟨err, n, h1, h2⟩ | ⟨ts, h1, h2⟩
  · exact Or.inl ⟨err, n, h1, h2⟩
  · exact Or.inr ⟨ts, by simpa [allocateTasks] using h1, h2⟩

/-- When some pair's hook cannot be constructed the allocation fails with the
construction error of the first such pair. -/
theorem allocateTasks.flat_error (env : Env) (runID : String)
    (pairs : List (Action × ActionHook)) :
    ∀ k, (∃ p ∈ pairs, ∃ e, env.NewHook p.2 p.1 = .error e) →
      ∃ err, allocateTasks.flat env runID k pairs = .error err ∧
        ∃ pre p post, pairs = pre ++ p :: post ∧
          (∀ q ∈ pre, ∃ h, env.NewHook q.2 q.1 = .ok h) ∧
          env.NewHook p.2 p.1 = .error err := by
  induction pairs with
  | nil => intro k ⟨p, hp, _⟩; simp at hp
  | cons p rest ih =>
    intro k hex
    simp only [allocateTasks.flat]
    cases hnew : env.NewHook p.2 p.1 with
    | error err => exact ⟨err, rfl, [], p, rest, rfl, by simp, hnew⟩
    | ok h =>
      have hex' : ∃ q ∈ rest, ∃ e, env.NewHook q.2 q.1 = .error e := by
        obtain ⟨q, hq, e, he⟩ := hex
        rcases List.mem_cons.1 hq with rfl | hq
        · rw [hnew] at he
          cases he
        · exact ⟨q, hq, e, he⟩
      obtain ⟨err, h1, pre, q, post, h2, h3, h4⟩ := ih (k + 1) hex'
      refine ⟨err, by simp [h1], p :: pre, q, post, by simp [h2], ?_, h4⟩
      intro q' hq'
      rcases List.mem_cons.1 hq' with rfl | hq'
      · exact ⟨h, hnew⟩
      · exact h3 q' hq'

/-- When every pair's hook can be constructed the allocation gives one task
per pair, in order, each with a nil error, the run identifier, the identifier
drawn for it, and the action and hook id of its pair. -/
theorem allocateTasks.flat_ok (env : Env) (runID : String)
    (pairs : List (Action × ActionHook)) :
    ∀ k, (∀ p ∈ pairs, ∃ h, env.NewHook p.2 p.1 = .ok h) →
      ∃ ts, allocateTasks.flat env runID k pairs = .ok ts ∧
        ts.length = pairs.length ∧
        (∀ t ∈ ts, t.Err = none ∧ t.RunID = runID) ∧
        ts.map (fun t => (t.Action.Name, t.HookID, t.HookRunID)) =
          (pairs.enumFrom k).map (fun kp => (kp.2.1.Name, kp.2.2.ID, env.idAt kp.1)) := by
  induction pairs with
  | nil => intro k _; exact ⟨[], rfl, rfl, by simp, rfl⟩
  | cons p rest ih =>
    intro k hall
    obtain ⟨h, hnew⟩ := hall p (List.mem_cons_self _ _)
    obtain ⟨ts, h1, h2, h3, h4⟩ := ih (k + 1) (fun q hq => hall q (List.mem_cons_of_mem _ hq))
    refine ⟨allocateTasks.task env runID k p h :: ts, by simp [allocateTasks.flat, hnew, h1],
      by simp [h2], ?_, ?_⟩
    · intro t ht
      rcases List.mem_cons.1 ht with rfl | ht
      · exact ⟨rfl, rfl⟩
      · exact h3 t ht
    · simp [List.enumFrom_cons, h4, allocateTasks.task]

/-! ## runTasks -/

/-- Every list of scheduler choices arranges the pending goroutines: each runs
exactly once. -/
theorem schedule_perm (choices pending : List Nat) :
    (schedule choices pending).Perm pending := by
  induction pending generalizing choices with
  | nil => cases choices <;> simp [schedule]
  | cons g rest ih =>
    cases choices with
    | nil => simp [schedule]
    | cons choice choices =>
      simp only [schedule]
      have hlen : choice % (rest.length + 1) ≤ (schedule choices rest).length := by
        rw [(ih choices).length_eq]
        exact Nat.le_of_lt_succ (Nat.mod_lt _ (Nat.succ_pos _))
      exact (List.perm_insertIdx g _ hlen).trans ((ih choices).cons g)

/-- Inserting at the length of the first part puts the element between the
two parts. -/
theorem insertIdx_append_length {α : Type} (a : α) (l1 l2 : List α) :
    (l1 ++ l2).insertIdx l1.length a = l1 ++ a :: l2 := by
  induction l1 with
  | nil => simp
  | cons b l1 ih => simp [List.insertIdx_succ_cons, ih]

/-- Every arrangement of the pending goroutines is the order of some list of
scheduler choices: the scheduling covers all orders of execution. -/
theorem schedule_complete (pending : List Nat) :
    ∀ order : List Nat, order.Perm pending → ∃ choices, schedule choices pending = order := by
  induction pending with
  | nil =>
    intro order h
    exact ⟨[], by simp [schedule, h.eq_nil]⟩
  | cons g rest ih =>
    intro order h
    have hmem : g ∈ order := h.mem_iff.2 (List.mem_cons_self _ _)
    obtain ⟨l1, l2, rfl⟩ := List.append_of_mem hmem
    have hrest : (l1 ++ l2).Perm rest := by
      have h1 : (g :: (l1 ++ l2)).Perm (g :: rest) := List.perm_middle.symm.trans h
      exact (List.perm_cons g).1 h1
    obtain ⟨choices, hc⟩ := ih (l1 ++ l2) hrest
    refine ⟨l1.length :: choices, ?_⟩
    have hlen : l1.length < rest.length + 1 := by
      have := hrest.length_eq
      simp only [List.length_append] at this
      omega
    simp only [schedule, hc, Nat.mod_eq_of_lt hlen]
    exact insertIdx_append_length g l1 l2

/-- A goroutine leaves the tasks of the other goroutines as they are and puts
the result of its body in place of its own. -/
theorem runTasks.step_tasks (env : Env) (event : Event) (deps : Deps) (g : Group) (i j : Nat) :
    (runTasks.step env event deps g i).tasks[j]? =
      if i = j then g.tasks[j]?.map (runTasks.body env event deps j) else g.tasks[j]? := by
  unfold runTasks.step
  cases hget : g.tasks[i]? with
  | none =>
    by_cases hij : i = j
    · subst hij
      simp [hget]
    · simp [hij]
  | some task =>
    have hi : i < g.tasks.length := by
      rcases Nat.lt_or_ge i g.tasks.length with h | h
      · exact h
      · rw [List.getElem?_eq_none h] at hget
        cases hget
    by_cases hij : i = j
    · subst hij
      simp [hget, List.getElem?_set_self, hi]
    · simp [hij, List.getElem?_set_ne]

/-- After the goroutines of a duplicate-free list of positions have run, the
tasks at those positions hold the result of the body, the others are as they
were. -/
theorem runTasks.fold_tasks (env : Env) (event : Event) (deps : Deps) (order : List Nat) :
    ∀ (g : Group), order.Nodup → ∀ j,
      (order.foldl (runTasks.step env event deps) g).tasks[j]? =
        if j ∈ order then g.tasks[j]?.map (runTasks.body env event deps j) else g.tasks[j]? := by
  induction order with
  | nil => intro g _ j; simp
  | cons i rest ih =>
    intro g hnd j
    obtain ⟨hi, hrest⟩ := List.nodup_cons.1 hnd
    rw [List.foldl_cons, ih _ hrest j, runTasks.step_tasks]
    by_cases hij : i = j
    · subst hij
      simp [hi]
    · have hji : ¬ j = i := fun h => hij h.symm
      simp [hij, hji]

/-- The errors the goroutines of a duplicate-free list of positions append to
the group, and the invocations they make, in the order they run. -/
theorem runTasks.fold_log (env : Env) (event : Event) (deps : Deps) (order : List Nat) :
    ∀ (g : Group), order.Nodup →
      (order.foldl (runTasks.step env event deps) g).errs =
        g.errs ++ order.filterMap (fun i =>
          (g.tasks[i]?).bind fun t => (runTasks.body env event deps i t).Err) ∧
      (order.foldl (runTasks.step env event deps) g).invoked =
        g.invoked ++ order.filterMap (fun i =>
          (g.tasks[i]?).map fun t => (i, runTasks.writer deps t)) := by
  induction order with
  | nil => intro g _; simp
  | cons i rest ih =>
    intro g hnd
    obtain ⟨hi, hrest⟩ := List.nodup_cons.1 hnd
    obtain ⟨e1, e2⟩ := ih (runTasks.step env event deps g i) hrest
    have hsame : ∀ j ∈ rest, (runTasks.step env event deps g i).tasks[j]? = g.tasks[j]? := by
      intro j hj
      rw [runTasks.step_tasks]
      have hij : ¬ i = j := fun h => hi (h ▸ hj)
      simp [hij]
    have c1 : rest.filterMap (fun j => ((runTasks.step env event deps g i).tasks[j]?).bind
          fun t => (runTasks.body env event deps j t).Err) =
        rest.filterMap (fun j => (g.tasks[j]?).bind
          fun t => (runTasks.body env event deps j t).Err) :=
      List.filterMap_congr (fun j hj => by rw [hsame j hj])
    have c2 : rest.filterMap (fun j => ((runTasks.step env event deps g i).tasks[j]?).map
          fun t => (j, runTasks.writer deps t)) =
        rest.filterMap (fun j => (g.tasks[j]?).map fun t => (j, runTasks.writer deps t)) :=
      List.filterMap_congr (fun j hj => by rw [hsame j hj])
    rw [List.foldl_cons, e1, e2, c1, c2]
    unfold runTasks.step
    cases hget : g.tasks[i]? with
    | none => simp [hget]
    | some task =>
      cases herr : (runTasks.body env event deps i task).Err with
      | none => simp [hget, herr]
      | some err => simp [hget, herr]

/-- Collecting, over the positions of a list, the image of the element at each
position gives the indexed map of the list. -/
theorem filterMap_range_getElem? {α β : Type} (f : Nat → α → β) (l : List α) :
    (List.range l.length).filterMap (fun i => (l[i]?).map (f i)) = l.mapIdx f := by
  induction l using List.reverseRecOn with
  | nil => simp
  | append_singleton l a ih =>
    rw [List.length_append, List.length_singleton, List.range_succ, List.filterMap_append,
      List.mapIdx_concat, ← ih]
    congr 1
    · apply List.filterMap_congr
      intro i hi
      have hlt : i < l.length := List.mem_range.1 hi
      rw [List.getElem?_append_left hlt]
    · simp

/-- What the group holds after `g.Wait()`: every task has been replaced by the
result of the body of its own goroutine; the invocations are those of the
tasks, one each, in some order; the errors are the errors of the tasks that
have one, in some order. -/
theorem runTasks.wait_spec (env : Env) (event : Event) (deps : Deps) (tasks : List Task) :
    (runTasks.wait env event deps tasks).tasks = tasks.mapIdx (runTasks.body env event deps) ∧
    (runTasks.wait env event deps tasks).invoked.Perm
      (tasks.mapIdx fun i t => (i, runTasks.writer deps t)) ∧
    (runTasks.wait env event deps tasks).errs.Perm
      ((tasks.mapIdx (runTasks.body env event deps)).filterMap fun t => t.Err) := by
  have hperm := schedule_perm env.sched (List.range tasks.length)
  have hnd : (schedule env.sched (List.range tasks.length)).Nodup :=
    hperm.nodup_iff.2 (List.nodup_range _)
  obtain ⟨e1, e2⟩ := runTasks.fold_log env event deps _
    { tasks := tasks, errs := [], invoked := [] } hnd
  refine ⟨?_, ?_, ?_⟩
  · symm
    rw [List.mapIdx_eq_iff]
    intro j
    unfold runTasks.wait
    rw [runTasks.fold_tasks env event deps _ _ hnd j]
    by_cases hj : j ∈ schedule env.sched (List.range tasks.length)
    · simp [hj]
    · have hge : tasks.length ≤ j := by
        have : ¬ j ∈ List.range tasks.length := fun h => hj (hperm.mem_iff.2 h)
        simpa using this
      simp [hj, List.getElem?_eq_none hge]
  · unfold runTasks.wait
    rw [e2, List.nil_append, ← filterMap_range_getElem?]
    exact hperm.filterMap _
  · unfold runTasks.wait
    rw [e1, List.nil_append, ← filterMap_range_getElem?, List.filterMap_filterMap]
    have hfun : (fun i => ((tasks[i]?).map (runTasks.body env event deps i)).bind
          fun t => t.Err) =
        (fun i => (tasks[i]?).bind fun t => (runTasks.body env event deps i t).Err) := by
      funext i
      cases tasks[i]? <;> rfl
    rw [hfun]
    exact hperm.filterMap _

/-- The body of a goroutine changes only the times and the error of its task;
the error it leaves is the wrapped error of the hook when the hook failed, and
the error the task had on entry when the hook succeeded. -/
theorem runTasks.body_spec (env : Env) (event : Event) (deps : Deps) (i : Nat) (t : Task) :
    (runTasks.body env event deps i t).RunID = t.RunID ∧
    (runTasks.body env event deps i t).HookRunID = t.HookRunID ∧
    (runTasks.body env event deps i t).Action = t.Action ∧
    (runTasks.body env event deps i t).HookID = t.HookID ∧
    (runTasks.body env event deps i t).StartTime = env.startAt i ∧
    (runTasks.body env event deps i t).EndTime = env.endAt i ∧
    (runTasks.body env event deps i t).Err =
      match t.Hook.Run event (runTasks.writer deps t) with
      | some err => some (Errorf ("run '" ++ t.RunID ++ "' failed on action '" ++
          t.Action.Name ++ "' hook '" ++ t.HookID ++ "': ") err)
      | none => t.Err := by
  unfold runTasks.body
  have hw : runTasks.writer deps { t with StartTime := env.startAt i } =
      runTasks.writer deps t := rfl
  simp only [hw]
  cases t.Hook.Run event (runTasks.writer deps t) <;> simp

/-- The error of `runTasks` is nil exactly when no goroutine left an error on
its task. -/
theorem runTasks_nil_iff (env : Env) (w : World) (tasks : List Task) (event : Event)
    (deps : Deps) :
    (runTasks env w tasks event deps).1 = none ↔
      ∀ i t, tasks[i]? = some t → (runTasks.body env event deps i t).Err = none := by
  obtain ⟨-, -, h3⟩ := runTasks.wait_spec env event deps tasks
  have hlen := h3.length_eq
  unfold runTasks
  simp only []
  constructor
  · intro h i t hget
    have h0 : (runTasks.wait env event deps tasks).errs.length = 0 := by
      by_contra hne
      simp [hne] at h
    rw [hlen, List.length_eq_zero, List.filterMap_eq_nil_iff] at h0
    apply h0 (runTasks.body env event deps i t)
    rw [List.mem_iff_getElem?]
    exact ⟨i, by simp [hget]⟩
  · intro h
    have h0 : (runTasks.wait env event deps tasks).errs.length = 0 := by
      rw [hlen, List.length_eq_zero, List.filterMap_eq_nil_iff]
      intro t' ht'
      rw [List.mem_iff_getElem?] at ht'
      obtain ⟨i, hi⟩ := ht'
      rw [List.getElem?_mapIdx] at hi
      cases hget : tasks[i]? with
      | none => simp [hget] at hi
      | some t =>
        simp only [hget, Option.map_some', Option.some.injEq] at hi
        rw [← hi]
        exact h i t hget
    simp [h0]

/-- For tasks that enter with a nil Err, the error of `runTasks` is nil exactly
when no hook returned an error. -/
theorem runTasks_nil_iff_hooks (env : Env) (w : World) (tasks : List Task) (event : Event)
    (deps : Deps) (hnil : ∀ t ∈ tasks, t.Err = none) :
    (runTasks env w tasks event deps).1 = none ↔
      ∀ t ∈ tasks, t.Hook.Run event (runTasks.writer deps t) = none := by
  have herr : ∀ (i : Nat) (t : Task), t ∈ tasks →
      ((runTasks.body env event deps i t).Err = none ↔
        t.Hook.Run event (runTasks.writer deps t) = none) := by
    intro i t ht
    rw [(runTasks.body_spec env event deps i t).2.2.2.2.2.2]
    cases t.Hook.Run event (runTasks.writer deps t) with
    | none => simp [hnil t ht]
    | some err => simp
  rw [runTasks_nil_iff]
  constructor
  · intro h t ht
    obtain ⟨i, hi⟩ := List.mem_iff_getElem?.1 ht
    exact (herr i t ht).1 (h i t hi)
  · intro h i t hget
    have hmem : t ∈ tasks := List.mem_iff_getElem?.2 ⟨i, hget⟩
    exact (herr i t hmem).2 (h t hmem)

/-- C2, as stated, fails: a task that enters `runTasks` with an error already
recorded keeps it when its hook succeeds, so its Err is non-nil although its
own hook returned no error. -/
theorem runTasks_keeps_recorded_error :
    ¬ ∀ (env : Env) (w : World) (tasks : List Task) (event : Event) (deps : Deps)
        (i : Nat) (t : Task), tasks[i]? = some t →
        ∃ t', (runTasks env w tasks event deps).2.1[i]? = some t' ∧
          (t'.Err ≠ none ↔ t.Hook.Run event (runTasks.writer deps t) ≠ none) := by
  intro h
  obtain ⟨t', h1, h2⟩ := h ⟨fun _ => "id", fun _ _ => .ok passingHook, [],
      fun _ => ⟨1, some 1⟩, fun _ => ⟨2, some 2⟩, fun _ => none⟩ ⟨⟨[], []⟩, [], [], 0⟩
    [sampleTask "hr-1" passingHook (some (.new "earlier" "earlier failure")) zeroTime]
    ⟨"repo", "pre-commit", "main", "src", ⟨1, none⟩⟩ ⟨none, ⟨"out"⟩⟩ 0
    (sampleTask "hr-1" passingHook (some (.new "earlier" "earlier failure")) zeroTime) rfl
  have h3 : t'.Err = some (.new "earlier" "earlier failure") := by
    have : some t' = some _ := h1.symm.trans rfl
    cases this
    rfl
  rw [h3] at h2
  exact (h2.1 (by simp)) rfl

/-- C2, amended: for every task list whose tasks have a nil Err on entry and
every assignment of outcomes to the hooks, `runTasks` invokes the hook of every
task exactly once, whatever the outcomes of the others; afterwards the Err of a
task is non-nil if and only if its own hook returned an error, and then it
wraps that error; the record a task ends with is the same in any other task
list that has this task at the same position and under any other scheduling;
and the returned error is nil if and only if no hook returned an error. -/
theorem runTasks_isolates (env : Env) (w : World) (tasks : List Task) (event : Event)
    (deps : Deps) (hnil : ∀ t ∈ tasks, t.Err = none) :
    (∃ calls, (runTasks env w tasks event deps).2.2.invoked = w.invoked ++ calls ∧
      calls.Perm (tasks.mapIdx fun i t => (i, runTasks.writer deps t))) ∧
    (runTasks env w tasks event deps).2.1.length = tasks.length ∧
    (∀ (i : Nat) (t : Task), tasks[i]? = some t →
      ∃ t' : Task, (runTasks env w tasks event deps).2.1[i]? = some t' ∧
        (t'.Err ≠ none ↔ t.Hook.Run event (runTasks.writer deps t) ≠ none) ∧
        (∀ err, t.Hook.Run event (runTasks.writer deps t) = some err →
          t'.Err = some (Errorf ("run '" ++ t.RunID ++ "' failed on action '" ++
            t.Action.Name ++ "' hook '" ++ t.HookID ++ "': ") err) ∧
          errorsIs (Errorf ("run '" ++ t.RunID ++ "' failed on action '" ++
            t.Action.Name ++ "' hook '" ++ t.HookID ++ "': ") err) err = true) ∧
        (∀ (sched2 : List Nat) (w2 : World) (tasks2 : List Task), tasks2[i]? = some t →
          (runTasks { env with sched := sched2 } w2 tasks2 event deps).2.1[i]? = some t')) ∧
    ((runTasks env w tasks event deps).1 = none ↔
      ∀ t ∈ tasks, t.Hook.Run event (runTasks.writer deps t) = none) := by
  have htasks : ∀ (e : Env) (w0 : World) (ts : List Task),
      (runTasks e w0 ts event deps).2.1 = ts.mapIdx (runTasks.body e event deps) :=
    fun e w0 ts => (runTasks.wait_spec e event deps ts).1
  have herr : ∀ (i : Nat) (t : Task), t ∈ tasks →
      ((runTasks.body env event deps i t).Err = none ↔
      t.Hook.Run event (runTasks.writer deps t) = none) := by
    intro i t ht
    rw [(runTasks.body_spec env event deps i t).2.2.2.2.2.2]
    cases t.Hook.Run event (runTasks.writer deps t) with
    | none => simp [hnil t ht]
    | some err => simp
  refine ⟨⟨(runTasks.wait env event deps tasks).invoked, rfl,
    (runTasks.wait_spec env event deps tasks).2.1⟩, ?_, ?_, ?_⟩
  · rw [htasks]
    simp
  · intro i t hget
    have hmem : t ∈ tasks := List.mem_iff_getElem?.2 ⟨i, hget⟩
    refine ⟨runTasks.body env event deps i t, ?_, ?_, ?_, ?_⟩
    · rw [htasks, List.getElem?_mapIdx, hget]
      rfl
    · exact not_congr (herr i t hmem)
    · intro err he
      refine ⟨?_, errorsIs_Errorf_inner _ _⟩
      rw [(runTasks.body_spec env event deps i t).2.2.2.2.2.2, he]
    · intro sched2 w2 tasks2 hget2
      rw [htasks, List.getElem?_mapIdx, hget2]
      rfl
  · exact runTasks_nil_iff_hooks env w tasks event deps hnil

/-! ## Run -/

/-- What a successful allocation gives: one task per pair, each with a nil
error and the run identifier, built from hooks that could all be constructed;
the call has only drawn one identifier per pair. -/
theorem allocateTasks_ok_inv (env : Env) (w w1 : World) (runID : String)
    (actions : List Action) (tasks : List Task)
    (halloc : allocateTasks env w runID actions = (.ok tasks, w1)) :
    w1 = { w with ids := w.ids + (hookPairs actions).length } ∧
    (∀ p ∈ hookPairs actions, ∃ h, env.NewHook p.2 p.1 = .ok h) ∧
    tasks.length = (hookPairs actions).length ∧
    (∀ t ∈ tasks, t.Err = none ∧ t.RunID = runID) ∧
    tasks.map (fun t => (t.Action.Name, t.HookID, t.HookRunID)) =
      ((hookPairs actions).enumFrom w.ids).map
        (fun kp => (kp.2.1.Name, kp.2.2.ID, env.idAt kp.1)) := by
  rcases allocateTasks_spec env w runID actions with ⟨err, n, h1, -⟩ | ⟨ts, h1, h2⟩
  · rw [h1] at halloc
    cases halloc
  · rw [h1] at halloc
    cases halloc
    have hall : ∀ p ∈ hookPairs actions, ∃ h, env.NewHook p.2 p.1 = .ok h := by
      by_contra hcon
      simp only [not_forall] at hcon
      obtain ⟨p, hp, hnone⟩ := hcon
      have hex : ∃ q ∈ hookPairs actions, ∃ e, env.NewHook q.2 q.1 = .error e := by
        refine ⟨p, hp, ?_⟩
        cases hnew : env.NewHook p.2 p.1 with
        | error e => exact ⟨e, rfl⟩
        | ok h => exact absurd ⟨h, hnew⟩ hnone
      obtain ⟨err, herr, -⟩ := allocateTasks.flat_error env runID (hookPairs actions) w.ids hex
      rw [herr] at h2
      cases h2
    obtain ⟨ts', g1, g2, g3, g4⟩ := allocateTasks.flat_ok env runID (hookPairs actions) w.ids hall
    rw [g1] at h2
    cases h2
    exact ⟨rfl, hall, g2, g3, g4⟩

/-- A call of `Run` that reaches execution returns the run identifier drawn at
its start with the persistence error when there is one and with the execution
error otherwise, and leaves the world as the persister left it. -/
theorem Run_executes (env : Env) (w w1 : World) (event : Event) (deps : Deps)
    (actions : List Action) (tasks : List Task)
    (hload : loadMatchedActions deps.Source
      { EventType := event.Type_, Branch := event.BranchID } = .ok actions)
    (hne : actions ≠ [])
    (halloc : allocateTasks env (NewRunID env w).2 (NewRunID env w).1 actions =
      (.ok tasks, w1)) :
    (Run env w event deps).1.1 = env.idAt w.ids ∧
    (Run env w event deps).2 =
      (insertRunInformation env (runTasks env w1 tasks event deps).2.2 (env.idAt w.ids) event
        (runTasks env w1 tasks event deps).2.1 (runTasks env w1 tasks event deps).1).2 ∧
    (∀ e, (insertRunInformation env (runTasks env w1 tasks event deps).2.2 (env.idAt w.ids)
        event (runTasks env w1 tasks event deps).2.1
        (runTasks env w1 tasks event deps).1).1 = some e →
      (Run env w event deps).1.2 = some (.single e)) ∧
    ((insertRunInformation env (runTasks env w1 tasks event deps).2.2 (env.idAt w.ids)
        event (runTasks env w1 tasks event deps).2.1
        (runTasks env w1 tasks event deps).1).1 = none →
      (Run env w event deps).1.2 = (runTasks env w1 tasks event deps).1) := by
  have hlen : ¬ actions.length = 0 := fun h => hne (List.length_eq_zero.1 h)
  have hid : (NewRunID env w).1 = env.idAt w.ids := rfl
  rw [hid] at halloc
  unfold Run
  simp only [hload, hlen, if_false, hid, halloc]
  rcases hp : insertRunInformation env (runTasks env w1 tasks event deps).2.2 (env.idAt w.ids)
      event (runTasks env w1 tasks event deps).2.1 (runTasks env w1 tasks event deps).1 with
    ⟨o, w2⟩
  cases o with
  | none => simp
  | some e => simp

/-- The task loop of the persister only adds to the statements sent. -/
theorem insertRunInformation.tasks_issued (runID : String) (event : Event)
    (tasks : List Task) :
    ∀ tx : Tx, ∃ rest,
      (insertRunInformation.tasks runID event tasks tx).2.issued = tx.issued ++ rest := by
  induction tasks with
  | nil => intro tx; exact ⟨[], by simp [insertRunInformation.tasks]⟩
  | cons task more ih =>
    intro tx
    simp only [insertRunInformation.tasks, Tx.Exec]
    cases tx.fault tx.issued.length with
    | some err => exact ⟨[_], rfl⟩
    | none =>
      obtain ⟨rest, h⟩ := ih
        { DB := (Stmt.insertRunHook (insertRunInformation.taskRow runID event task)).apply tx.DB,
          issued := tx.issued ++
            [Stmt.insertRunHook (insertRunInformation.taskRow runID event task)],
          fault := tx.fault }
      exact ⟨Stmt.insertRunHook (insertRunInformation.taskRow runID event task) :: rest,
        by simp only [h]; simp⟩

/-- Given at least one task, `insertRunInformation` sends the insert of the run
row, whatever the run error and whatever the datastore answers. -/
theorem insertRunInformation_sends (env : Env) (w : World) (runID : String) (event : Event)
    (tasks : List Task) (runErr : Option GoError) (hne : tasks ≠ []) :
    ∃ rest, (insertRunInformation env w runID event tasks runErr).2.issued =
      w.issued ++ Stmt.insertRun (insertRunInformation.runRow runID event tasks runErr) ::
        rest := by
  have hlen : ¬ tasks.length = 0 := fun h => hne (List.length_eq_zero.1 h)
  unfold insertRunInformation Transact insertRunInformation.txFn
  simp only [hlen, if_false, Tx.Exec, List.length_nil, List.nil_append]
  cases env.fault 0 with
  | some err => exact ⟨[], rfl⟩
  | none =>
    obtain ⟨rest, h⟩ := insertRunInformation.tasks_issued runID event tasks
      { DB := (Stmt.insertRun (insertRunInformation.runRow runID event tasks runErr)).apply w.DB,
        issued := [Stmt.insertRun (insertRunInformation.runRow runID event tasks runErr)],
        fault := env.fault }
    refine ⟨rest, ?_⟩
    simp only []
    rcases hp : insertRunInformation.tasks runID event tasks
      { DB := (Stmt.insertRun (insertRunInformation.runRow runID event tasks runErr)).apply w.DB,
        issued := [Stmt.insertRun (insertRunInformation.runRow runID event tasks runErr)],
        fault := env.fault } with ⟨o, tx⟩
    rw [hp] at h
    simp only [] at h
    cases o <;> simp [h]

/-- `runTasks` changes nothing in the world but the invocation log, and keeps
the number of tasks. -/
theorem runTasks_frame (env : Env) (w : World) (tasks : List Task) (event : Event)
    (deps : Deps) :
    (runTasks env w tasks event deps).2.2.DB = w.DB ∧
    (runTasks env w tasks event deps).2.2.issued = w.issued ∧
    (runTasks env w tasks event deps).2.2.ids = w.ids ∧
    (runTasks env w tasks event deps).2.1 = tasks.mapIdx (runTasks.body env event deps) ∧
    (runTasks env w tasks event deps).2.1.length = tasks.length := by
  refine ⟨rfl, rfl, rfl, (runTasks.wait_spec env event deps tasks).1, ?_⟩
  show (runTasks.wait env event deps tasks).tasks.length = _
  rw [(runTasks.wait_spec env event deps tasks).1]
  simp

/-- C4: for every call of `Run` that reaches execution (some action matched
and allocation succeeded) the returned identifier is the one generated at the
start of the call; the error returned is the persistence error whenever
persistence fails, whatever the execution error, and otherwise is the
aggregated execution error, which is nil exactly when no hook failed; and,
given at least one task, the insert of the run row is sent to the datastore
whether or not a hook failed. -/
theorem Run_persistence_error_first (env : Env) (w w1 : World) (event : Event) (deps : Deps)
    (actions : List Action) (tasks : List Task)
    (hload : loadMatchedActions deps.Source
      { EventType := event.Type_, Branch := event.BranchID } = .ok actions)
    (hne : actions ≠ [])
    (halloc : allocateTasks env (NewRunID env w).2 (NewRunID env w).1 actions =
      (.ok tasks, w1)) :
    (Run env w event deps).1.1 = env.idAt w.ids ∧
    (∀ e, (insertRunInformation env (runTasks env w1 tasks event deps).2.2 (env.idAt w.ids)
        event (runTasks env w1 tasks event deps).2.1
        (runTasks env w1 tasks event deps).1).1 = some e →
      (Run env w event deps).1.2 = some (.single e)) ∧
    ((insertRunInformation env (runTasks env w1 tasks event deps).2.2 (env.idAt w.ids)
        event (runTasks env w1 tasks event deps).2.1
        (runTasks env w1 tasks event deps).1).1 = none →
      (Run env w event deps).1.2 = (runTasks env w1 tasks event deps).1) ∧
    ((runTasks env w1 tasks event deps).1 = none ↔
      ∀ t ∈ tasks, t.Hook.Run event (runTasks.writer deps t) = none) ∧
    (tasks ≠ [] → ∃ rest, (Run env w event deps).2.issued =
      w.issued ++ Stmt.insertRun (insertRunInformation.runRow (env.idAt w.ids) event
        (runTasks env w1 tasks event deps).2.1 (runTasks env w1 tasks event deps).1) ::
        rest) := by
  obtain ⟨r1, r2, r3, r4⟩ := Run_executes env w w1 event deps actions tasks hload hne halloc
  obtain ⟨a1, -, -, a4, -⟩ := allocateTasks_ok_inv env _ w1 _ actions tasks halloc
  obtain ⟨-, f2, -, -, f5⟩ := runTasks_frame env w1 tasks event deps
  refine ⟨r1, r3, r4, ?_, ?_⟩
  · exact runTasks_nil_iff_hooks env w1 tasks event deps (fun t ht => (a4 t ht).1)
  · intro hts
    have hne' : (runTasks env w1 tasks event deps).2.1 ≠ [] := by
      intro h
      rw [h] at f5
      exact hts (List.length_eq_zero.1 f5.symm)
    obtain ⟨rest, hs⟩ := insertRunInformation_sends env (runTasks env w1 tasks event deps).2.2
      (env.idAt w.ids) event (runTasks env w1 tasks event deps).2.1
      (runTasks env w1 tasks event deps).1 hne'
    refine ⟨rest, ?_⟩
    rw [r2, hs, f2, a1]
    rfl

/-- What a call of `Run` that reaches execution with at least one task writes
when the datastore accepts every insert: the run row and the task rows of the
tasks as `runTasks` left them; and it returns the execution error. -/
theorem Run_persists (env : Env) (w w1 : World) (event : Event) (deps : Deps)
    (actions : List Action) (tasks : List Task)
    (hload : loadMatchedActions deps.Source
      { EventType := event.Type_, Branch := event.BranchID } = .ok actions)
    (hne : actions ≠ [])
    (halloc : allocateTasks env (NewRunID env w).2 (NewRunID env w).1 actions =
      (.ok tasks, w1))
    (htasks : tasks ≠ []) (hok : ∀ k ≤ tasks.length, env.fault k = none) :
    (Run env w event deps).1 = (env.idAt w.ids, (runTasks env w1 tasks event deps).1) ∧
    (Run env w event deps).2.DB.actions_runs = w.DB.actions_runs ++
      [insertRunInformation.runRow (env.idAt w.ids) event
        (tasks.mapIdx (runTasks.body env event deps)) (runTasks env w1 tasks event deps).1] ∧
    (Run env w event deps).2.DB.actions_run_hooks = w.DB.actions_run_hooks ++
      (tasks.mapIdx (runTasks.body env event deps)).map
        (insertRunInformation.taskRow (env.idAt w.ids) event) := by
  obtain ⟨r1, r2, -, r4⟩ := Run_executes env w w1 event deps actions tasks hload hne halloc
  obtain ⟨a1, -⟩ := allocateTasks_ok_inv env _ w1 _ actions tasks halloc
  obtain ⟨f1, -, -, f4, f5⟩ := runTasks_frame env w1 tasks event deps
  have hne' : (runTasks env w1 tasks event deps).2.1 ≠ [] := by
    intro h
    rw [h] at f5
    exact htasks (List.length_eq_zero.1 f5.symm)
  have hins := insertRunInformation_ok env (runTasks env w1 tasks event deps).2.2
    (env.idAt w.ids) event (runTasks env w1 tasks event deps).2.1
    (runTasks env w1 tasks event deps).1 hne' (by rw [f5]; exact hok)
  have hdb : (runTasks env w1 tasks event deps).2.2.DB = w.DB := by
    rw [f1, a1]
    rfl
  refine ⟨?_, ?_, ?_⟩
  · refine Prod.ext r1 ?_
    exact r4 (by rw [hins])
  · rw [r2, hins]
    simp only []
    rw [hdb, f4]
  · rw [r2, hins]
    simp only []
    rw [hdb, f4]

/-- The task row of a task passed exactly when the body of its goroutine left
no error on it. -/
theorem taskRows_passed_iff (env : Env) (event : Event) (deps : Deps) (runID : String)
    (tasks : List Task) :
    (∀ r ∈ (tasks.mapIdx (runTasks.body env event deps)).map
        (insertRunInformation.taskRow runID event), r.passed = true) ↔
      ∀ (i : Nat) (t : Task), tasks[i]? = some t →
        (runTasks.body env event deps i t).Err = none := by
  constructor
  · intro h i t hget
    have hmem : insertRunInformation.taskRow runID event (runTasks.body env event deps i t) ∈
        (tasks.mapIdx (runTasks.body env event deps)).map
          (insertRunInformation.taskRow runID event) := by
      apply List.mem_map_of_mem
      rw [List.mem_iff_getElem?]
      exact ⟨i, by simp [hget]⟩
    have := h _ hmem
    simpa [insertRunInformation.taskRow, Option.isNone_iff_eq_none] using this
  · intro h r hr
    obtain ⟨t', ht', rfl⟩ := List.mem_map.1 hr
    rw [List.mem_iff_getElem?] at ht'
    obtain ⟨i, hi⟩ := ht'
    rw [List.getElem?_mapIdx] at hi
    cases hget : tasks[i]? with
    | none => simp [hget] at hi
    | some t =>
      simp only [hget, Option.map_some', Option.some.injEq] at hi
      rw [← hi]
      simp [insertRunInformation.taskRow, h i t hget]

/-- C1: for every call of `Run` that allocates at least one task and whose
persistence succeeds, one run row and one task row per task are inserted, all
with the run identifier of the call; the run row has passed = true if and only
if every inserted task row has passed = true, and that holds if and only if
`Run` returns a nil error, which is the case exactly when no hook returned an
error. -/
theorem Run_passed_iff (env : Env) (w w1 : World) (event : Event) (deps : Deps)
    (actions : List Action) (tasks : List Task)
    (hload : loadMatchedActions deps.Source
      { EventType := event.Type_, Branch := event.BranchID } = .ok actions)
    (hne : actions ≠ [])
    (halloc : allocateTasks env (NewRunID env w).2 (NewRunID env w).1 actions =
      (.ok tasks, w1))
    (htasks : tasks ≠ []) (hok : ∀ k ≤ tasks.length, env.fault k = none) :
    ∃ (runRow : RunRow) (taskRows : List HookRow),
      (Run env w event deps).2.DB.actions_runs = w.DB.actions_runs ++ [runRow] ∧
      (Run env w event deps).2.DB.actions_run_hooks = w.DB.actions_run_hooks ++ taskRows ∧
      runRow.run_id = (Run env w event deps).1.1 ∧
      taskRows.length = tasks.length ∧
      (∀ r ∈ taskRows, r.run_id = (Run env w event deps).1.1) ∧
      (runRow.passed = true ↔ ∀ r ∈ taskRows, r.passed = true) ∧
      (runRow.passed = true ↔ (Run env w event deps).1.2 = none) ∧
      ((Run env w event deps).1.2 = none ↔
        ∀ t ∈ tasks, t.Hook.Run event (runTasks.writer deps t) = none) := by
  obtain ⟨p1, p2, p3⟩ :=
    Run_persists env w w1 event deps actions tasks hload hne halloc htasks hok
  obtain ⟨-, -, -, a4, -⟩ := allocateTasks_ok_inv env _ w1 _ actions tasks halloc
  have hnil := runTasks_nil_iff env w1 tasks event deps
  have hrows := taskRows_passed_iff env event deps (env.idAt w.ids) tasks
  refine ⟨_, _, p2, p3, ?_, ?_, ?_, ?_, ?_, ?_⟩
  · rw [p1]
    rfl
  · simp
  · intro r hr
    obtain ⟨t', -, rfl⟩ := List.mem_map.1 hr
    rw [p1]
    rfl
  · rw [hrows, ← hnil]
    simp [insertRunInformation.runRow, Option.isNone_iff_eq_none]
  · rw [p1]
    simp [insertRunInformation.runRow, Option.isNone_iff_eq_none]
  · rw [p1]
    exact runTasks_nil_iff_hooks env w1 tasks event deps (fun t ht => (a4 t ht).1)

/-- C7: for every call of `Run` whose matched actions declare N ≥ 1 hooks in
all, whose hooks can all be constructed and whose persistence succeeds, exactly
one row is added to `actions_runs`, keyed by the event's repository and the run
identifier, with the event's type, branch, source reference and time and an
empty commit_id, and exactly N rows are added to `actions_run_hooks`, one for
each (action, hook) pair in action order then hook order, each with that
action's name, that hook's id, the run identifier and the hook-run identifier
of its task, which is the identifier drawn for that pair. -/
theorem Run_rows (env : Env) (w : World) (event : Event) (deps : Deps)
    (actions : List Action)
    (hload : loadMatchedActions deps.Source
      { EventType := event.Type_, Branch := event.BranchID } = .ok actions)
    (hpos : 1 ≤ (hookPairs actions).length)
    (hnew : ∀ p ∈ hookPairs actions, ∃ h, env.NewHook p.2 p.1 = .ok h)
    (hok : ∀ k ≤ (hookPairs actions).length, env.fault k = none) :
    ∃ (runRow : RunRow) (taskRows : List HookRow) (tasks : List Task),
      (allocateTasks env (NewRunID env w).2 (NewRunID env w).1 actions).1 = .ok tasks ∧
      (Run env w event deps).2.DB.actions_runs = w.DB.actions_runs ++ [runRow] ∧
      (Run env w event deps).2.DB.actions_run_hooks = w.DB.actions_run_hooks ++ taskRows ∧
      (runRow.repository_id = event.RepositoryID ∧ runRow.run_id = (Run env w event deps).1.1 ∧
        runRow.event_type = event.Type_ ∧ runRow.branch_id = event.BranchID ∧
        runRow.source_ref = event.SourceRef ∧ runRow.start_time = event.Time.wall ∧
        runRow.commit_id = "") ∧
      taskRows.length = (hookPairs actions).length ∧
      taskRows.map (fun r => (r.repository_id, r.run_id, r.action_name, r.hook_id,
          r.hook_run_id)) =
        ((hookPairs actions).enumFrom (w.ids + 1)).map (fun kp =>
          (event.RepositoryID, (Run env w event deps).1.1, kp.2.1.Name, kp.2.2.ID,
            env.idAt kp.1)) ∧
      taskRows.map (fun r => r.hook_run_id) = tasks.map (fun t => t.HookRunID) := by
  have hne : actions ≠ [] := by
    intro h
    rw [h] at hpos
    simp [hookPairs] at hpos
  rcases allocateTasks_spec env (NewRunID env w).2 (NewRunID env w).1 actions with
    ⟨err, n, -, h2⟩ | ⟨tasks, h1, -⟩
  · obtain ⟨ts, g1, -⟩ := allocateTasks.flat_ok env (NewRunID env w).1 (hookPairs actions)
      (NewRunID env w).2.ids hnew
    rw [g1] at h2
    cases h2
  · obtain ⟨-, -, a3, -, a5⟩ := allocateTasks_ok_inv env _ _ _ actions tasks h1
    have htasks : tasks ≠ [] := by
      intro h
      rw [h] at a3
      simp only [List.length_nil] at a3
      omega
    obtain ⟨p1, p2, p3⟩ := Run_persists env w _ event deps actions tasks hload hne h1 htasks
      (by rw [a3]; exact hok)
    have hkey : ∀ (f : Task → String × String × String),
        (∀ (i : Nat) (t : Task), f (runTasks.body env event deps i t) = f t) →
        (tasks.mapIdx (runTasks.body env event deps)).map f = tasks.map f := by
      intro f hf
      apply List.ext_getElem?
      intro i
      simp only [List.getElem?_map, List.getElem?_mapIdx]
      cases tasks[i]? with
      | none => rfl
      | some t => simp [hf i t]
    have hbody : (tasks.mapIdx (runTasks.body env event deps)).map
        (fun t => (t.Action.Name, t.HookID, t.HookRunID)) =
        tasks.map (fun t => (t.Action.Name, t.HookID, t.HookRunID)) :=
      hkey _ (fun i t => by
        obtain ⟨-, b2, b3, b4, -⟩ := runTasks.body_spec env event deps i t
        simp [b2, b3, b4])
    refine ⟨_, _, tasks, by rw [h1], p2, p3, ?_, ?_, ?_, ?_⟩
    · rw [p1]
      exact ⟨rfl, rfl, rfl, rfl, rfl, rfl, rfl⟩
    · simp [a3]
    · rw [p1]
      have hmap : ∀ l : List Task,
          (l.map (insertRunInformation.taskRow (env.idAt w.ids) event)).map
            (fun r => (r.repository_id, r.run_id, r.action_name, r.hook_id, r.hook_run_id)) =
          (l.map (fun t => (t.Action.Name, t.HookID, t.HookRunID))).map
            (fun k => (event.RepositoryID, env.idAt w.ids, k.1, k.2.1, k.2.2)) := by
        intro l
        simp [insertRunInformation.taskRow, Function.comp_def]
      rw [hmap, hbody, a5]
      simp [NewRunID, Function.comp_def]
    · have hmap : ∀ l : List Task,
          (l.map (insertRunInformation.taskRow (env.idAt w.ids) event)).map
            (fun r => r.hook_run_id) =
          (l.map (fun t => (t.Action.Name, t.HookID, t.HookRunID))).map (fun k => k.2.2) := by
        intro l
        simp [insertRunInformation.taskRow, Function.comp_def]
      rw [hmap, hbody]
      simp [Function.comp_def]

/-- C6: for every list of matched actions in which the construction of some
hook fails, `allocateTasks` returns no tasks and the construction error of the
first hook that fails, wherever it stands among the pairs, and `Run` returns
the run identifier with that error, having invoked no hook, sent no statement
and written no row. -/
theorem Run_allocation_failure (env : Env) (w : World) (event : Event) (deps : Deps)
    (actions : List Action)
    (hload : loadMatchedActions deps.Source
      { EventType := event.Type_, Branch := event.BranchID } = .ok actions)
    (hfail : ∃ p ∈ hookPairs actions, ∃ e, env.NewHook p.2 p.1 = .error e) :
    ∃ err,
      (allocateTasks env (NewRunID env w).2 (NewRunID env w).1 actions).1 = .error err ∧
      (∃ pre p post, hookPairs actions = pre ++ p :: post ∧
        (∀ q ∈ pre, ∃ h, env.NewHook q.2 q.1 = .ok h) ∧
        env.NewHook p.2 p.1 = .error err) ∧
      (Run env w event deps).1 = (env.idAt w.ids, some (.single err)) ∧
      (Run env w event deps).2.invoked = w.invoked ∧
      (Run env w event deps).2.issued = w.issued ∧
      (Run env w event deps).2.DB = w.DB := by
  have hne : ¬ actions.length = 0 := by
    intro h
    obtain ⟨p, hp, -⟩ := hfail
    rw [List.length_eq_zero.1 h] at hp
    simp [hookPairs] at hp
  obtain ⟨err, herr, hpos⟩ := allocateTasks.flat_error env (NewRunID env w).1
    (hookPairs actions) (NewRunID env w).2.ids hfail
  rcases allocateTasks_spec env (NewRunID env w).2 (NewRunID env w).1 actions with
    ⟨err', n, h1, h2⟩ | ⟨ts, -, h2⟩
  · rw [herr] at h2
    cases h2
    have hid : (NewRunID env w).1 = env.idAt w.ids := rfl
    refine ⟨err, by rw [h1], hpos, ?_⟩
    rw [hid] at h1
    unfold Run
    simp only [hload, hne, if_false, hid, h1]
    exact ⟨trivial, rfl, rfl, rfl⟩
  · rw [herr] at h2
    cases h2

/-- When no action matches, `loadMatchedActions` gives no action and no error. -/
theorem loadMatchedActions_none (source : Option Source) (spec : MatchSpec)
    (hnone : source = none ∨ ∃ src acts, source = some src ∧ LoadActions src = .ok acts ∧
      ∀ a ∈ acts, a.Match spec = false) :
    loadMatchedActions source spec = .ok [] := by
  rcases hnone with rfl | ⟨src, acts, rfl, hl, hm⟩
  · rfl
  · simp only [loadMatchedActions, hl, MatchedActions]
    congr 1
    rw [List.filter_eq_nil_iff]
    intro a ha
    simp [hm a ha]

/-- C5: for every event for which no action matches (the source is nil, or the
loader yields actions none of which matches the event's type and branch, in
particular no action at all), `Run` returns the run identifier it generated
with a nil error, invokes no hook, sends no statement and leaves both tables
unchanged; so, the identifier being new to the repository, `GetRunResult` for
it reports `ErrNotFound`. -/
theorem Run_no_match (env : Env) (w : World) (event : Event) (deps : Deps)
    (fault : Nat → Option Err)
    (hnone : deps.Source = none ∨ ∃ src acts, deps.Source = some src ∧
      LoadActions src = .ok acts ∧
      ∀ a ∈ acts, a.Match { EventType := event.Type_, Branch := event.BranchID } = false)
    (hfresh : ∀ r ∈ w.DB.actions_runs,
      ¬ (r.repository_id = event.RepositoryID ∧ r.run_id = env.idAt w.ids))
    (hread : fault 0 = none) :
    (Run env w event deps).1 = (env.idAt w.ids, none) ∧
    (Run env w event deps).2.invoked = w.invoked ∧
    (Run env w event deps).2.issued = w.issued ∧
    (Run env w event deps).2.DB = w.DB ∧
    (GetRunResult fault (Run env w event deps).2 event.RepositoryID
      (Run env w event deps).1.1).1 = (none, some ErrNotFound) := by
  have hload := loadMatchedActions_none deps.Source
    { EventType := event.Type_, Branch := event.BranchID } hnone
  have hrun : Run env w event deps = ((env.idAt w.ids, none), { w with ids := w.ids + 1 }) := by
    unfold Run
    simp only [hload, List.length_nil, if_true]
    rfl
  refine ⟨by rw [hrun], by rw [hrun], by rw [hrun], by rw [hrun], ?_⟩
  rw [hrun]
  exact (GetRunResult_absent fault { w with ids := w.ids + 1 } event.RepositoryID
    (env.idAt w.ids) hread).2 hfresh

/-- In the scenario the premises of `Run_passed_iff` hold; the run row is
written with passed = false, the row of H1 with passed = true and the row of
H2 with passed = false. -/
theorem Run_passed_iff_witness :
    (Run sampleEnv sampleWorld sampleEvent sampleDeps).2.DB.actions_runs =
      sampleWorld.DB.actions_runs ++
        [⟨"repo", "run-3", "pre-commit", 5, 21, "main", "src", "", false⟩] ∧
    (Run sampleEnv sampleWorld sampleEvent sampleDeps).2.DB.actions_run_hooks =
      sampleWorld.DB.actions_run_hooks ++
        [⟨"repo", "run-3", "hr-4", "pre-commit", "checks", "H1", 10, 20, true⟩,
         ⟨"repo", "run-3", "hr-5", "pre-commit", "checks", "H2", 11, 21, false⟩] ∧
    ∃ (runRow : RunRow) (taskRows : List HookRow),
      (Run sampleEnv sampleWorld sampleEvent sampleDeps).2.DB.actions_runs =
        sampleWorld.DB.actions_runs ++ [runRow] ∧
      (Run sampleEnv sampleWorld sampleEvent sampleDeps).2.DB.actions_run_hooks =
        sampleWorld.DB.actions_run_hooks ++ taskRows ∧
      runRow.run_id = (Run sampleEnv sampleWorld sampleEvent sampleDeps).1.1 ∧
      taskRows.length = sampleTasks.length ∧
      (∀ r ∈ taskRows, r.run_id = (Run sampleEnv sampleWorld sampleEvent sampleDeps).1.1) ∧
      (runRow.passed = true ↔ ∀ r ∈ taskRows, r.passed = true) ∧
      (runRow.passed = true ↔ (Run sampleEnv sampleWorld sampleEvent sampleDeps).1.2 = none) ∧
      ((Run sampleEnv sampleWorld sampleEvent sampleDeps).1.2 = none ↔
        ∀ t ∈ sampleTasks, t.Hook.Run sampleEvent (runTasks.writer sampleDeps t) = none) :=
  ⟨by decide, by decide,
    Run_passed_iff sampleEnv sampleWorld sampleAllocated sampleEvent sampleDeps [sampleAction]
      sampleTasks rfl (by simp) rfl (by simp [sampleTasks]) (fun _ _ => rfl)⟩

/-- The scenario's tasks enter `runTasks` with a nil Err; after it the first
has no error, the second has the wrapped timeout, and the returned error is
not nil. -/
theorem runTasks_isolates_witness :
    (∀ t ∈ sampleTasks, t.Err = none) ∧
    (runTasks sampleEnv sampleAllocated sampleTasks sampleEvent sampleDeps).2.1.length = 2 ∧
    (runTasks sampleEnv sampleAllocated sampleTasks sampleEvent sampleDeps).1 =
      some (.multi [Errorf "run 'run-3' failed on action 'checks' hook 'H2': "
        (.new "hook.timeout" "timeout")]) ∧
    ((runTasks sampleEnv sampleAllocated sampleTasks sampleEvent sampleDeps).1 = none ↔
      ∀ t ∈ sampleTasks, t.Hook.Run sampleEvent (runTasks.writer sampleDeps t) = none) :=
  ⟨by decide,
    (runTasks_isolates sampleEnv sampleAllocated sampleTasks sampleEvent sampleDeps
      (by decide)).2.1,
    by decide,
    (runTasks_isolates sampleEnv sampleAllocated sampleTasks sampleEvent sampleDeps
      (by decide)).2.2.2⟩

/-- When the datastore rejects the insert of the first task row of the
scenario, `insertRunInformation` leaves the tables as they were, has sent two
statements and returns the error that names (checks H1). -/
theorem insertRunInformation_rollback_witness :
    (insertRunInformation { sampleEnv with fault := faultAtSecond } sampleWorld "run-3"
      sampleEvent sampleTasks none).2.DB = sampleWorld.DB ∧
    (insertRunInformation { sampleEnv with fault := faultAtSecond } sampleWorld "run-3"
      sampleEvent sampleTasks none).2.issued = sampleWorld.issued ++
        (insertRunInformation.stmts "run-3" sampleEvent sampleTasks none).take 2 ∧
    (insertRunInformation { sampleEnv with fault := faultAtSecond } sampleWorld "run-3"
      sampleEvent sampleTasks none).1 =
        some (Errorf "insert run hook information (checks H1): "
          (.new "db.conn" "connection reset")) :=
  ⟨(insertRunInformation_rollback { sampleEnv with fault := faultAtSecond } sampleWorld "run-3"
      sampleEvent sampleTasks none 1 (.new "db.conn" "connection reset")
      (by simp [sampleTasks]) (by decide) (by decide) rfl).1,
    (insertRunInformation_rollback { sampleEnv with fault := faultAtSecond } sampleWorld "run-3"
      sampleEvent sampleTasks none 1 (.new "db.conn" "connection reset")
      (by simp [sampleTasks]) (by decide) (by decide) rfl).2.1,
    by decide⟩

/-- In the scenario `Run` returns the identifier drawn first and, persistence
succeeding, the execution error; with a datastore that rejects the second
statement it returns the persistence error although a hook failed too. -/
theorem Run_persistence_error_first_witness :
    (Run sampleEnv sampleWorld sampleEvent sampleDeps).1.1 = "run-3" ∧
    (Run sampleEnv sampleWorld sampleEvent sampleDeps).1.2 =
      (runTasks sampleEnv sampleAllocated sampleTasks sampleEvent sampleDeps).1 ∧
    (Run { sampleEnv with fault := faultAtSecond } sampleWorld sampleEvent sampleDeps).1.2 =
      some (.single (Errorf "insert run hook information (checks H1): "
        (.new "db.conn" "connection reset"))) :=
  ⟨(Run_persistence_error_first sampleEnv sampleWorld sampleAllocated sampleEvent sampleDeps
      [sampleAction] sampleTasks rfl (by simp) rfl).1,
    (Run_persistence_error_first sampleEnv sampleWorld sampleAllocated sampleEvent sampleDeps
      [sampleAction] sampleTasks rfl (by simp) rfl).2.2.1 (by decide),
    (Run_persistence_error_first { sampleEnv with fault := faultAtSecond } sampleWorld
      sampleAllocated sampleEvent sampleDeps [sampleAction] sampleTasks rfl (by simp)
      rfl).2.1 _ (by decide)⟩

/-- With no action source, `Run` on the sample world returns run-3 and a nil
error and changes no table, and `GetRunResult` for run-3 reports
`ErrNotFound`. -/
theorem Run_no_match_witness :
    (∀ r ∈ sampleWorld.DB.actions_runs,
      ¬ (r.repository_id = sampleEvent.RepositoryID ∧
        r.run_id = sampleEnv.idAt sampleWorld.ids)) ∧
    ((Run sampleEnv sampleWorld sampleEvent ⟨none, ⟨"out"⟩⟩).1 =
        (sampleEnv.idAt sampleWorld.ids, none) ∧
      (Run sampleEnv sampleWorld sampleEvent ⟨none, ⟨"out"⟩⟩).2.invoked = sampleWorld.invoked ∧
      (Run sampleEnv sampleWorld sampleEvent ⟨none, ⟨"out"⟩⟩).2.issued = sampleWorld.issued ∧
      (Run sampleEnv sampleWorld sampleEvent ⟨none, ⟨"out"⟩⟩).2.DB = sampleWorld.DB ∧
      (GetRunResult noFault (Run sampleEnv sampleWorld sampleEvent ⟨none, ⟨"out"⟩⟩).2
        sampleEvent.RepositoryID
        (Run sampleEnv sampleWorld sampleEvent ⟨none, ⟨"out"⟩⟩).1.1).1 =
          (none, some ErrNotFound)) :=
  ⟨by decide,
    Run_no_match sampleEnv sampleWorld sampleEvent ⟨none, ⟨"out"⟩⟩ noFault (Or.inl rfl)
      (by decide) rfl⟩

/-- With the action whose second hook cannot be constructed after the
scenario's action, allocation fails at the fourth pair and `Run` returns the
construction error, invoking no hook and writing nothing. -/
theorem Run_allocation_failure_witness :
    ∃ err,
      (allocateTasks sampleEnv (NewRunID sampleEnv sampleWorld).2
        (NewRunID sampleEnv sampleWorld).1 [sampleAction, brokenAction]).1 = .error err ∧
      (∃ pre p post, hookPairs [sampleAction, brokenAction] = pre ++ p :: post ∧
        (∀ q ∈ pre, ∃ h, sampleEnv.NewHook q.2 q.1 = .ok h) ∧
        sampleEnv.NewHook p.2 p.1 = .error err) ∧
      (Run sampleEnv sampleWorld sampleEvent
        ⟨some ⟨.ok [sampleAction, brokenAction]⟩, ⟨"out"⟩⟩).1 =
          (sampleEnv.idAt sampleWorld.ids, some (.single err)) ∧
      (Run sampleEnv sampleWorld sampleEvent
        ⟨some ⟨.ok [sampleAction, brokenAction]⟩, ⟨"out"⟩⟩).2.invoked = sampleWorld.invoked ∧
      (Run sampleEnv sampleWorld sampleEvent
        ⟨some ⟨.ok [sampleAction, brokenAction]⟩, ⟨"out"⟩⟩).2.issued = sampleWorld.issued ∧
      (Run sampleEnv sampleWorld sampleEvent
        ⟨some ⟨.ok [sampleAction, brokenAction]⟩, ⟨"out"⟩⟩).2.DB = sampleWorld.DB :=
  Run_allocation_failure sampleEnv sampleWorld sampleEvent
    ⟨some ⟨.ok [sampleAction, brokenAction]⟩, ⟨"out"⟩⟩ [sampleAction, brokenAction] rfl
    ⟨(brokenAction, ⟨"H9", "carrier-pigeon"⟩),
      List.mem_append_right _ (List.mem_append_left _
        (List.mem_cons_of_mem _ (List.mem_cons_self _ _))),
      .new "actions.ErrUnknownHookType" "unknown hook type", rfl⟩

/-- In the scenario one run row and two task rows are added, the task rows for
(checks, H1) and (checks, H2) in this order with the identifiers hr-4 and hr-5. -/
theorem Run_rows_witness :
    (Run sampleEnv sampleWorld sampleEvent sampleDeps).2.DB.actions_run_hooks =
      sampleWorld.DB.actions_run_hooks ++
        [⟨"repo", "run-3", "hr-4", "pre-commit", "checks", "H1", 10, 20, true⟩,
         ⟨"repo", "run-3", "hr-5", "pre-commit", "checks", "H2", 11, 21, false⟩] ∧
    ∃ (runRow : RunRow) (taskRows : List HookRow) (tasks : List Task),
      (allocateTasks sampleEnv (NewRunID sampleEnv sampleWorld).2
        (NewRunID sampleEnv sampleWorld).1 [sampleAction]).1 = .ok tasks ∧
      (Run sampleEnv sampleWorld sampleEvent sampleDeps).2.DB.actions_runs =
        sampleWorld.DB.actions_runs ++ [runRow] ∧
      (Run sampleEnv sampleWorld sampleEvent sampleDeps).2.DB.actions_run_hooks =
        sampleWorld.DB.actions_run_hooks ++ taskRows ∧
      (runRow.repository_id = sampleEvent.RepositoryID ∧
        runRow.run_id = (Run sampleEnv sampleWorld sampleEvent sampleDeps).1.1 ∧
        runRow.event_type = sampleEvent.Type_ ∧ runRow.branch_id = sampleEvent.BranchID ∧
        runRow.source_ref = sampleEvent.SourceRef ∧
        runRow.start_time = sampleEvent.Time.wall ∧
        runRow.commit_id = "") ∧
      taskRows.length = (hookPairs [sampleAction]).length ∧
      taskRows.map (fun r => (r.repository_id, r.run_id, r.action_name, r.hook_id,
          r.hook_run_id)) =
        ((hookPairs [sampleAction]).enumFrom (sampleWorld.ids + 1)).map (fun kp =>
          (sampleEvent.RepositoryID, (Run sampleEnv sampleWorld sampleEvent sampleDeps).1.1,
            kp.2.1.Name, kp.2.2.ID, sampleEnv.idAt kp.1)) ∧
      taskRows.map (fun r => r.hook_run_id) = tasks.map (fun t => t.HookRunID) :=
  ⟨by decide,
    Run_rows sampleEnv sampleWorld sampleEvent sampleDeps [sampleAction] rfl (by decide)
      (by
        intro p hp
        simp only [hookPairs, sampleAction, List.map_cons, List.map_nil, List.append_nil,
          List.mem_cons, List.mem_singleton, List.not_mem_nil, or_false] at hp
        rcases hp with rfl | rfl
        · exact ⟨_, rfl⟩
        · exact ⟨_, rfl⟩)
      (fun _ _ => rfl)⟩

end actions
